import Mathlib

/-!
# octosql: the physical `GroupBy` plan node and the JSON output sink

A shallow embedding of `physical/group_by.go` and `output/json/output.go`.

* Interfaces (`Node`, `Expression`, `io.Writer`, `json.Encoder`) are dispatched
  dynamically in Go; here the methods of the values a function calls are
  passed in as functions, bundled in small records.
* Callbacks and writers have effects in Go; here they pass a state explicitly.
* A Go `error` is a value of `Error`; `nil` is `none` / `Except.ok`.
-/

namespace Octosql

/-! ## Values shared by both files -/

/-- Modelled from the spec: `octosql.VariableName`, a comparable identifier for a
field or alias, the empty one meaning "unnamed". The type is declared outside
the two source files; it is a string type there. -/
structure VariableName where
  name : String
  deriving DecidableEq, Repr

/-- Modelled from the spec: `octosql.NewVariableName`, the conversion from a string. -/
def NewVariableName (s : String) : VariableName := ⟨s⟩

/-- Modelled from the spec: `VariableName.String`, the conversion back. -/
def VariableName.String (v : VariableName) : String := v.name

/-- Modelled from the spec: `VariableName.Empty`, the test for the sentinel. -/
def VariableName.Empty (v : VariableName) : Bool := v.name == ""

/-- A Go `error` value as `github.com/pkg/errors` builds it: a fresh error
(`errors.Errorf`, or one coming from a collaborator) or a cause wrapped with a
message (`errors.Wrap`, `errors.Wrapf`). -/
inductive Error where
  | Errorf (msg : String)
  | Wrap (cause : Error) (msg : String)
  deriving DecidableEq, Repr

/-! ## `physical/metadata` -/

/-- Modelled from the spec: the cardinality class of `physical/metadata`, whose
declaration is outside the source files: three values, ordered
`BoundedFitsInLocalStorage < BoundedDoesntFitInLocalStorage < Unbounded`. -/
inductive Cardinality where
  | BoundedFitsInLocalStorage
  | BoundedDoesntFitInLocalStorage
  | Unbounded
  deriving DecidableEq, Repr

/-- Position of a cardinality class in the order of the spec. -/
def Cardinality.rank : Cardinality → Nat
  | .BoundedFitsInLocalStorage => 0
  | .BoundedDoesntFitInLocalStorage => 1
  | .Unbounded => 2

instance : LE Cardinality := ⟨fun a b => a.rank ≤ b.rank⟩

instance (a b : Cardinality) : Decidable (a ≤ b) :=
  inferInstanceAs (Decidable (a.rank ≤ b.rank))

/-- Modelled from the spec: `metadata.NodeMetadata`, the pair of a cardinality
class and a leading-key hint. -/
structure NodeMetadata where
  cardinality : Cardinality
  leadingKey : VariableName
  deriving DecidableEq, Repr

/-- Modelled from the spec: `metadata.NewNodeMetadata`. -/
def NewNodeMetadata (cardinality : Cardinality) (leadingKey : VariableName) : NodeMetadata :=
  ⟨cardinality, leadingKey⟩

/-- Modelled from the spec: the accessor `NodeMetadata.Cardinality`. -/
def NodeMetadata.Cardinality (m : NodeMetadata) : Cardinality := m.cardinality

/-! ## `physical/group_by.go` -/

/-- The type `Aggregate`, a string type (line 16). -/
structure Aggregate where
  kind : String
  deriving DecidableEq, Repr

/-- The struct `GroupBy` (lines 35-43). `N` is the type of plan nodes (the
interface `Node`) and `E` the type of physical expressions (the interface
`Expression`). -/
structure GroupBy (N E : Type) where
  Source : N
  Key : List E
  Fields : List VariableName
  Aggregates : List Aggregate
  As : List VariableName

/-- The constructor `NewGroupBy` (lines 45-47). -/
def NewGroupBy {N E : Type} (source : N) (key : List E) (fields : List VariableName)
    (aggregates : List Aggregate) (as : List VariableName) : GroupBy N E :=
  { Source := source, Key := key, Fields := fields, Aggregates := aggregates, As := as }

/-- Lines 98-101 of `GroupBy.Metadata`: what the method does with the metadata
`m` that its call on line 97 returned. -/
def GroupBy.Metadata.body (m : NodeMetadata) : NodeMetadata :=
  let cardinality := m.Cardinality
  let cardinality :=
    if cardinality = Cardinality.BoundedDoesntFitInLocalStorage then
      Cardinality.BoundedFitsInLocalStorage
    else cardinality
  NewNodeMetadata cardinality (NewVariableName "")

/-- The method `GroupBy.Metadata` (lines 96-102). Line 97 calls `node.Metadata()`,
the method itself on the same receiver, so the embedding takes fuel: the number
of nested calls allowed. `none` means the fuel ran out before a call returned. -/
def GroupBy.Metadata {N E : Type} : Nat → GroupBy N E → Option NodeMetadata
  | 0, _ => none
  | fuel + 1, node =>
    match GroupBy.Metadata fuel node with
    | none => none
    | some m => some (GroupBy.Metadata.body m)

/-- The visitor bundle `Transformers`, of which `GroupBy.Transform` reads the
field `NodeT`: `none` is the Go `nil`, no callback registered. A Go callback is
a closure and may have effects, so here it passes a state of type `σ`. -/
structure Transformers (σ N : Type) where
  NodeT : Option (N → σ → N × σ)

/-- The methods `GroupBy.Transform` calls through the interfaces `Node` and
`Expression`, and the conversion of a `*GroupBy` to the interface `Node`
(line 57). The context argument `ctx` is passed along unread and is left out. -/
structure TransformMethods (σ N E : Type) where
  nodeTransform : N → Transformers σ N → σ → N × σ
  exprTransform : E → Transformers σ N → σ → E × σ
  asNode : GroupBy N E → N

/-- The loop of lines 50-53: each key expression is transformed, in index order. -/
def GroupBy.Transform.keys {σ N E : Type} (I : TransformMethods σ N E)
    (transformers : Transformers σ N) : List E → σ → List E × σ
  | [], s => ([], s)
  | e :: rest, s =>
    let r := I.exprTransform e transformers s
    let rs := GroupBy.Transform.keys I transformers rest r.2
    (r.1 :: rs.1, rs.2)

/-- Lines 50-63 of `GroupBy.Transform`: the key expressions are transformed,
then the source, and the new `GroupBy` is built. -/
def GroupBy.Transform.built {σ N E : Type} (I : TransformMethods σ N E)
    (node : GroupBy N E) (transformers : Transformers σ N) (s : σ) : GroupBy N E × σ :=
  let key := GroupBy.Transform.keys I transformers node.Key s
  let source := I.nodeTransform node.Source transformers key.2
  ({ Source := source.1
     Key := key.1
     Fields := node.Fields
     Aggregates := node.Aggregates
     As := node.As }, source.2)

/-- The method `GroupBy.Transform` (lines 49-70). -/
def GroupBy.Transform {σ N E : Type} (I : TransformMethods σ N E)
    (node : GroupBy N E) (transformers : Transformers σ N) (s : σ) : N × σ :=
  let b := GroupBy.Transform.built I node transformers s
  let transformed : N := I.asNode b.1
  match transformers.NodeT with
  | some f => f transformed b.2
  | none => (transformed, b.2)

/-- What `GroupBy.Materialize` uses from outside the file: the method
`Materialize` of the interfaces `Node` and `Expression` (`Except.error` is a
non-nil error), the registry `aggregates.AggregateTable` (a Go map from strings
to prototypes), the zero value of the prototype type (a nil function), and the
constructor `execution.NewGroupBy`. The arguments `ctx` and `matCtx` are passed
along unread and are left out. -/
structure MaterializeMethods (N E XN XE P : Type) where
  nodeMaterialize : N → Except Error XN
  exprMaterialize : E → Except Error XE
  AggregateTable : String → Option P
  nilPrototype : P
  NewGroupBy : XN → List XE → List VariableName → List P → List VariableName → XN

/-- A Go map index expression `m[k]`: the entry, or the zero value when `k` is
not a key. -/
def mapIndex {P : Type} (m : String → Option P) (zero : P) (k : String) : P :=
  match m k with
  | some p => p
  | none => zero

/-- The loop of lines 79-86, from index `i` on. -/
def GroupBy.Materialize.keys {N E XN XE P : Type} (I : MaterializeMethods N E XN XE P) :
    Nat → List E → Except Error (List XE)
  | _, [] => Except.ok []
  | i, e :: rest =>
    match I.exprMaterialize e with
    | Except.error err =>
      Except.error
        (Error.Wrap err ("couldn't materialize group key expression with index " ++ toString i))
    | Except.ok keyPart =>
      match GroupBy.Materialize.keys I (i + 1) rest with
      | Except.error err => Except.error err
      | Except.ok key => Except.ok (keyPart :: key)

/-- The loop of lines 88-91. -/
def GroupBy.Materialize.prototypes {N E XN XE P : Type} (I : MaterializeMethods N E XN XE P) :
    List Aggregate → List P
  | [] => []
  | a :: rest =>
    mapIndex I.AggregateTable I.nilPrototype a.kind :: GroupBy.Materialize.prototypes I rest

/-- The method `GroupBy.Materialize` (lines 72-94). -/
def GroupBy.Materialize {N E XN XE P : Type} (I : MaterializeMethods N E XN XE P)
    (node : GroupBy N E) : Except Error XN :=
  match I.nodeMaterialize node.Source with
  | Except.error err => Except.error (Error.Wrap err "couldn't materialize Source node")
  | Except.ok source =>
    match GroupBy.Materialize.keys I 0 node.Key with
    | Except.error err => Except.error err
    | Except.ok key =>
      let aggregatePrototypes := GroupBy.Materialize.prototypes I node.Aggregates
      Except.ok (I.NewGroupBy source key node.Fields aggregatePrototypes node.As)

/-! ## `output/json/output.go` -/

/-- Modelled from the spec: a field of a record, of which the sink reads the name. -/
structure Field where
  Name : VariableName
  deriving DecidableEq, Repr

/-- The struct `Output` (lines 13-17). The fields `w` and `enc` refer to one
writer (line 22 builds the encoder on `w`); `w` here is the state of that
writer together with its encoder. -/
structure Output (ω : Type) where
  w : ω
  firstRecordWritten : Bool

/-- What the sink uses from outside the file: `io.Writer.Write` (new state,
byte count, error), `json.Encoder.Encode` on a map from strings to raw values
(new state, error), and the record accessors `Fields`, `Value` and
`ToRawValue`. -/
structure SinkMethods (ω R V Raw : Type) where
  Write : ω → List Char → ω × Int × Option Error
  Encode : ω → (String → Option Raw) → ω × Option Error
  Fields : R → List Field
  Value : R → VariableName → V
  ToRawValue : V → Raw

/-- The constructor `NewOutput` (lines 19-25). -/
def NewOutput {ω : Type} (w : ω) : Output ω :=
  { w := w, firstRecordWritten := false }

/-- A Go map assignment `kvs[k] = v`. -/
def mapSet {Raw : Type} (kvs : String → Option Raw) (k : String) (v : Raw) : String → Option Raw :=
  fun q => if q = k then some v else kvs q

/-- Lines 46-49 of `Output.WriteRecord`: the map handed to the encoder. -/
def Output.WriteRecord.kvs {ω R V Raw : Type} (I : SinkMethods ω R V Raw) (record : R) :
    String → Option Raw :=
  (I.Fields record).foldl
    (fun kvs field => mapSet kvs field.Name.String (I.ToRawValue (I.Value record field.Name)))
    (fun _ => none)

/-- Lines 28-45 of `Output.WriteRecord`: the delimiter before the record. The
error is `none` when the method goes on to line 46. -/
def Output.WriteRecord.delimiter {ω R V Raw : Type} (I : SinkMethods ω R V Raw)
    (o : Output ω) : Output ω × Option Error :=
  if !o.firstRecordWritten then
    let r := I.Write o.w ['[']
    let o1 : Output ω := { w := r.1, firstRecordWritten := true }
    match r.2.2 with
    | some err => (o1, some (Error.Wrap err "couldn't write leading square bracket"))
    | none =>
      if r.2.1 ≠ 1 then (o1, some (Error.Errorf "couldn't write leading square bracket"))
      else (o1, none)
  else
    let r := I.Write o.w [',']
    let o1 : Output ω := { o with w := r.1 }
    match r.2.2 with
    | some err => (o1, some (Error.Wrap err "couldn't write separating comma"))
    | none =>
      if r.2.1 ≠ 1 then (o1, some (Error.Errorf "couldn't write separating comma"))
      else (o1, none)

/-- The method `Output.WriteRecord` (lines 27-56): the receiver after the call
and the error returned (`none` is `nil`). -/
def Output.WriteRecord {ω R V Raw : Type} (I : SinkMethods ω R V Raw)
    (o : Output ω) (record : R) : Output ω × Option Error :=
  match Output.WriteRecord.delimiter I o with
  | (o1, some err) => (o1, some err)
  | (o1, none) =>
    let kvs := Output.WriteRecord.kvs I record
    let r := I.Encode o1.w kvs
    let o2 : Output ω := { o1 with w := r.1 }
    match r.2 with
    | some err => (o2, some (Error.Wrap err "couldn't encode record as json"))
    | none => (o2, none)

/-- The method `Output.Close` (lines 58-68). -/
def Output.Close {ω R V Raw : Type} (I : SinkMethods ω R V Raw)
    (o : Output ω) : Output ω × Option Error :=
  let r := I.Write o.w [']']
  let o1 : Output ω := { o with w := r.1 }
  match r.2.2 with
  | some err => (o1, some (Error.Wrap err "couldn't write trailing square bracket"))
  | none =>
    if r.2.1 ≠ 1 then (o1, some (Error.Errorf "couldn't write trailing square bracket"))
    else (o1, none)

/-- The use the driver makes of a sink (spec, section 6): `WriteRecord` once per
record, in order; the first error ends the run. -/
def Output.writeRecords {ω R V Raw : Type} (I : SinkMethods ω R V Raw) :
    Output ω → List R → Output ω × Option Error
  | o, [] => (o, none)
  | o, record :: rest =>
    match Output.WriteRecord I o record with
    | (o1, some err) => (o1, some err)
    | (o1, none) => Output.writeRecords I o1 rest

/-- A whole run on a fresh `Output` over the writer `w`: the records are
written, then `Close` is called once. -/
def Output.run {ω R V Raw : Type} (I : SinkMethods ω R V Raw) (w : ω) (records : List R) :
    Output ω × Option Error :=
  match Output.writeRecords I (NewOutput w) records with
  | (o, some err) => (o, some err)
  | (o, none) => Output.Close I o

/-- A delimiter write is short: the writer reports no error and a byte count
other than 1. -/
def shortWrite {ω R V Raw : Type} (I : SinkMethods ω R V Raw) (w : ω) (b : Char) : Prop :=
  (I.Write w [b]).2.2 = none ∧ (I.Write w [b]).2.1 ≠ 1

/-- The delimiter `WriteRecord` writes: `[` on a fresh `Output`, `,` afterwards. -/
def Output.delimiterByte {ω : Type} (o : Output ω) : Char :=
  if o.firstRecordWritten then ',' else '['

/-- The writer and the encoder succeed and append: seen through `bytes`, a
write of one byte adds that byte and reports the count 1 and no error, and the
encoding of the map of a record `r` adds `enc r` and reports no error. -/
def Succeeds {ω R V Raw : Type} (I : SinkMethods ω R V Raw) (bytes : ω → List Char)
    (enc : R → List Char) : Prop :=
  (∀ w b, bytes (I.Write w [b]).1 = bytes w ++ [b] ∧ (I.Write w [b]).2.1 = 1 ∧
      (I.Write w [b]).2.2 = none) ∧
    (∀ w r, bytes (I.Encode w (Output.WriteRecord.kvs I r)).1 = bytes w ++ enc r ∧
      (I.Encode w (Output.WriteRecord.kvs I r)).2 = none)

/-! ## The invariant of the spec and the callbacks of its properties -/

/-- The invariant `len(Fields) == len(Aggregates) == len(As)` of the spec. -/
def GroupBy.lengthsAgree {N E : Type} (g : GroupBy N E) : Prop :=
  g.Fields.length = g.Aggregates.length ∧ g.Aggregates.length = g.As.length

instance {N E : Type} (g : GroupBy N E) : Decidable g.lengthsAgree :=
  inferInstanceAs (Decidable (_ ∧ _))

/-- The empty visitor bundle: no callback registered. -/
def Transformers.empty {σ N : Type} : Transformers σ N := { NodeT := none }

/-- A node callback that records the nodes it is called on: the state is the
list of the nodes seen so far, and the callback returns `f n`. -/
def recorder {N : Type} (f : N → N) : N → List N → N × List N :=
  fun n seen => (f n, seen ++ [n])

/-! ## A small plan language for the examples -/

/-- Modelled from the spec: plan nodes of the kinds the spec's examples use.
`Scan` and `Filter` are declared outside the source files; a key expression
here is a variable, a leaf without sub-queries. -/
inductive PlanNode where
  | scan (table : String)
  | filter (Source : PlanNode)
  | groupBy (Source : PlanNode) (Key : List VariableName) (Fields : List VariableName)
      (Aggregates : List Aggregate) (As : List VariableName)
  deriving DecidableEq, Repr

/-- A `*GroupBy` seen as a node of the example language. -/
def PlanNode.ofGroupBy (g : GroupBy PlanNode VariableName) : PlanNode :=
  PlanNode.groupBy g.Source g.Key g.Fields g.Aggregates g.As

/-- The callback of the bundle applied to a node, when there is one. -/
def applyNodeT {σ N : Type} (transformers : Transformers σ N) (n : N) (s : σ) : N × σ :=
  match transformers.NodeT with
  | some f => f n s
  | none => (n, s)

/-- Modelled from the spec: `Transform` on the example language, children first
and the node itself last (section 4.2). The `GroupBy` case is the embedded
`GroupBy.Transform`, the call on its source being the recursive call. -/
def PlanNode.Transform {σ : Type} :
    PlanNode → Transformers σ PlanNode → σ → PlanNode × σ
  | PlanNode.scan table, transformers, s => applyNodeT transformers (PlanNode.scan table) s
  | PlanNode.filter source, transformers, s =>
    let r := PlanNode.Transform source transformers s
    applyNodeT transformers (PlanNode.filter r.1) r.2
  | PlanNode.groupBy source key fields aggregates as, transformers, s =>
    GroupBy.Transform
      { nodeTransform := fun _ t x => PlanNode.Transform source t x
        exprTransform := fun e _ x => (e, x)
        asNode := PlanNode.ofGroupBy }
      { Source := source, Key := key, Fields := fields, Aggregates := aggregates, As := as }
      transformers s

/-- The interface methods of the example language, for `GroupBy.Transform`. -/
def planTransform (σ : Type) : TransformMethods σ PlanNode VariableName :=
  { nodeTransform := PlanNode.Transform
    exprTransform := fun e _ x => (e, x)
    asNode := PlanNode.ofGroupBy }

/-- Modelled from the spec: execution operators for the example language; a
prototype is the name of an accumulator constructor, `none` being the nil
prototype. -/
inductive ExecNode where
  | scan (table : String)
  | filter (Source : ExecNode)
  | groupBy (Source : ExecNode) (Key : List VariableName) (Fields : List VariableName)
      (Prototypes : List (Option String)) (As : List VariableName)
  deriving DecidableEq, Repr

/-- Modelled from the spec: the registry of the ten aggregate kinds
(sections 3 and 4.5), each mapped to its own constructor. -/
def exampleTable (k : String) : Option (Option String) :=
  if k ∈ ["avg", "avg_distinct", "count", "count_distinct", "first", "last", "max", "min",
      "sum", "sum_distinct"] then some (some k) else none

/-- Modelled from the spec: a named variable materializes to itself, and the
unnamed one does not materialize. -/
def exampleExprMaterialize (v : VariableName) : Except Error VariableName :=
  if v.Empty then Except.error (Error.Errorf "unnamed variable") else Except.ok v

/-- Modelled from the spec: `Materialize` on the example language. The
`GroupBy` case is the embedded `GroupBy.Materialize`, the call on its source
being the recursive call. -/
def PlanNode.Materialize : PlanNode → Except Error ExecNode
  | PlanNode.scan table => Except.ok (ExecNode.scan table)
  | PlanNode.filter source =>
    match PlanNode.Materialize source with
    | Except.error err => Except.error (Error.Wrap err "couldn't materialize Source node")
    | Except.ok x => Except.ok (ExecNode.filter x)
  | PlanNode.groupBy source key fields aggregates as =>
    GroupBy.Materialize
      { nodeMaterialize := fun _ => PlanNode.Materialize source
        exprMaterialize := exampleExprMaterialize
        AggregateTable := exampleTable
        nilPrototype := none
        NewGroupBy := ExecNode.groupBy }
      { Source := source, Key := key, Fields := fields, Aggregates := aggregates, As := as }

/-- The interface methods of the example language, for `GroupBy.Materialize`. -/
def planMaterialize : MaterializeMethods PlanNode VariableName ExecNode VariableName (Option String) :=
  { nodeMaterialize := PlanNode.Materialize
    exprMaterialize := exampleExprMaterialize
    AggregateTable := exampleTable
    nilPrototype := none
    NewGroupBy := ExecNode.groupBy }

/-- Modelled from the spec: a record of the example sink, a list of named raw
values; a name that is absent has the empty value. -/
abbrev ExampleRecord := List (String × String)

/-- The fields of an example record, in order. -/
def ExampleRecord.Fields (r : ExampleRecord) : List Field :=
  r.map fun p => { Name := NewVariableName p.1 }

/-- The value of an example record under a name. -/
def ExampleRecord.Value (r : ExampleRecord) (name : VariableName) : String :=
  match r.lookup name.name with
  | some v => v
  | none => ""

/-- The rendering the example encoder gives a map: the entry under `"n"` and a
line feed (`json.Encoder.Encode` ends every value with a line feed). -/
def exampleEncoding (kvs : String → Option String) : List Char :=
  match kvs "n" with
  | some v => v.toList ++ ['\n']
  | none => ['\n']

/-- A sink over an in-memory buffer whose writes and encodings all succeed: the
state is the list of the bytes written so far. -/
def bufferSink : SinkMethods (List Char) ExampleRecord String String :=
  { Write := fun w bs => (w ++ bs, (bs.length : Int), none)
    Encode := fun w kvs => (w ++ exampleEncoding kvs, none)
    Fields := ExampleRecord.Fields
    Value := ExampleRecord.Value
    ToRawValue := fun v => v }

/-- A call made on the writer or on the encoder built on it. -/
inductive Call where
  | Write (bytes : List Char)
  | Encode (rendering : List Char)
  deriving DecidableEq, Repr

/-- A sink whose writer accepts no byte and reports no error; the state is the
list of the calls made so far. -/
def shortSink : SinkMethods (List Call) ExampleRecord String String :=
  { Write := fun w bs => (w ++ [Call.Write bs], 0, none)
    Encode := fun w kvs => (w ++ [Call.Encode (exampleEncoding kvs)], none)
    Fields := ExampleRecord.Fields
    Value := ExampleRecord.Value
    ToRawValue := fun v => v }

/-! ## Further definitions: `NewAggregate`, `GroupBy.Visualize` -/

/-- The constant `Avg` (line 19). -/
def Aggregate.Avg : Aggregate := ⟨"avg"⟩

/-- The constant `AvgDistinct` (line 20). -/
def Aggregate.AvgDistinct : Aggregate := ⟨"avg_distinct"⟩

/-- The constant `Count` (line 21). -/
def Aggregate.Count : Aggregate := ⟨"count"⟩

/-- The constant `CountDistinct` (line 22). -/
def Aggregate.CountDistinct : Aggregate := ⟨"count_distinct"⟩

/-- The constant `First` (line 23). -/
def Aggregate.First : Aggregate := ⟨"first"⟩

/-- The constant `Last` (line 24). -/
def Aggregate.Last : Aggregate := ⟨"last"⟩

/-- The constant `Max` (line 25). -/
def Aggregate.Max : Aggregate := ⟨"max"⟩

/-- The constant `Min` (line 26). -/
def Aggregate.Min : Aggregate := ⟨"min"⟩

/-- The constant `Sum` (line 27). -/
def Aggregate.Sum : Aggregate := ⟨"sum"⟩

/-- The constant `SumDistinct` (line 28). -/
def Aggregate.SumDistinct : Aggregate := ⟨"sum_distinct"⟩

/-- The ten constants of lines 18-29. -/
def Aggregate.constants : List Aggregate :=
  [Aggregate.Avg, Aggregate.AvgDistinct, Aggregate.Count, Aggregate.CountDistinct,
    Aggregate.First, Aggregate.Last, Aggregate.Max, Aggregate.Min, Aggregate.Sum,
    Aggregate.SumDistinct]

/-- The library function `unicode.ToLower` on one rune. Up to `unicode.MaxASCII`
the library shifts `A`-`Z` by `'a' - 'A'` and returns any other rune as it is;
above, it looks the rune up in the Unicode case tables, which are the parameter
`table`. -/
def unicode.ToLower (table : Char → Char) (r : Char) : Char :=
  if r.toNat ≤ 0x7F then
    if 'A'.toNat ≤ r.toNat ∧ r.toNat ≤ 'Z'.toNat then
      Char.ofNat (r.toNat + ('a'.toNat - 'A'.toNat))
    else r
  else table r

/-- The library function `strings.ToLower`: every rune of the string mapped by
`unicode.ToLower`. -/
def strings.ToLower (table : Char → Char) (s : String) : String :=
  ⟨s.data.map (unicode.ToLower table)⟩

/-- The function `NewAggregate` (lines 31-33). -/
def NewAggregate (table : Char → Char) (aggregate : String) : Aggregate :=
  ⟨strings.ToLower table aggregate⟩

/-- A rune and the same rune with its case possibly changed, for the letters
`a`-`z` and `A`-`Z`: any other rune is left as it is. -/
def asciiCaseChanged (c d : Char) : Prop :=
  d = c ∨ d = c.toLower ∨ d = c.toUpper

instance (c d : Char) : Decidable (asciiCaseChanged c d) :=
  inferInstanceAs (Decidable (_ ∨ _ ∨ _))

/-- A string and the same string with the case of some of its letters `a`-`z`,
`A`-`Z` changed. -/
def AsciiCaseChanged (s t : String) : Prop :=
  List.Forall₂ asciiCaseChanged s.data t.data

/-- Entries of the Unicode case tables for the runes of the examples: the
capital I with a dot above (U+0130) has the lower case `i`; no other rune above
ASCII is changed, the dotless i (U+0131) in particular has no lower case other
than itself. -/
def exampleLowerTable (r : Char) : Char :=
  if r = Char.ofNat 0x130 then 'i' else r

/-- Entries of the Unicode case tables for the runes of the examples: the upper
case of the dotless i (U+0131) is `I`. -/
def exampleUpperTable (r : Char) : Char :=
  if r = Char.ofNat 0x131 then 'I' else r

/-- The state in which the key loop of `GroupBy.Transform` transforms the key
expression at index `i`: the state left by the expressions before it. -/
def GroupBy.Transform.keyState {σ N E : Type} (I : TransformMethods σ N E)
    (transformers : Transformers σ N) : List E → σ → Nat → σ
  | [], s, _ => s
  | _ :: _, s, 0 => s
  | e :: rest, s, i + 1 =>
    GroupBy.Transform.keyState I transformers rest (I.exprTransform e transformers s).2 i

/-- Modelled from the spec: `graph.Node`, declared outside the source files: a
named node for debug rendering, which keeps the fields and the children added
to it, in the order of the calls. -/
inductive GraphNode where
  | mk (Name : String) (Fields : List (String × String)) (Children : List (String × GraphNode))

/-- The name of a graph node. -/
def GraphNode.Name : GraphNode → String
  | GraphNode.mk name _ _ => name

/-- The fields of a graph node, as pairs of a name and a value. -/
def GraphNode.Fields : GraphNode → List (String × String)
  | GraphNode.mk _ fields _ => fields

/-- The children of a graph node, as pairs of a name and a node. -/
def GraphNode.Children : GraphNode → List (String × GraphNode)
  | GraphNode.mk _ _ children => children

/-- Modelled from the spec: `graph.NewNode`, a node without fields or children. -/
def graph.NewNode (name : String) : GraphNode := GraphNode.mk name [] []

/-- Modelled from the spec: `graph.Node.AddChild`, which appends a child. -/
def GraphNode.AddChild (n : GraphNode) (name : String) (child : GraphNode) : GraphNode :=
  GraphNode.mk n.Name n.Fields (n.Children ++ [(name, child)])

/-- Modelled from the spec: `graph.Node.AddField`, which appends a field. -/
def GraphNode.AddField (n : GraphNode) (name value : String) : GraphNode :=
  GraphNode.mk n.Name (n.Fields ++ [(name, value)]) n.Children

/-- The method `Visualize` of the interfaces `Node` and `Expression`, which
`GroupBy.Visualize` calls on its source and on its key expressions. -/
structure VisualizeMethods (N E : Type) where
  nodeVisualize : N → GraphNode
  exprVisualize : E → GraphNode

/-- The loop of lines 108-110, from index `i` on. -/
def GroupBy.Visualize.children {N E : Type} (I : VisualizeMethods N E) :
    Nat → List E → GraphNode → GraphNode
  | _, [], n => n
  | i, expr :: rest, n =>
    GroupBy.Visualize.children I (i + 1) rest
      (n.AddChild ("key_" ++ toString i) (I.exprVisualize expr))

/-- Lines 113-116: the value of the field for one aggregate. -/
def GroupBy.Visualize.value (aggregate : Aggregate) (field as : VariableName) : String :=
  let value := aggregate.kind ++ "(" ++ field.String ++ ")"
  if !as.Empty then value ++ (" as " ++ as.String) else value

/-- The loop of lines 112-118, from index `i` on, over the field names from
that index on. An index expression out of range panics: the result is `none`. -/
def GroupBy.Visualize.fields {N E : Type} (node : GroupBy N E) :
    Nat → List VariableName → GraphNode → Option GraphNode
  | _, [], n => some n
  | i, field :: rest, n =>
    match node.Aggregates[i]? with
    | none => none
    | some aggregate =>
      match node.As[i]? with
      | none => none
      | some as =>
        GroupBy.Visualize.fields node (i + 1) rest
          (n.AddField ("field_" ++ toString i) (GroupBy.Visualize.value aggregate field as))

/-- The method `GroupBy.Visualize` (lines 104-121); `none` is a panic. -/
def GroupBy.Visualize {N E : Type} (I : VisualizeMethods N E) (node : GroupBy N E) :
    Option GraphNode :=
  let n := graph.NewNode "Group By"
  let n := n.AddChild "source" (I.nodeVisualize node.Source)
  let n := GroupBy.Visualize.children I 0 node.Key n
  GroupBy.Visualize.fields node 0 node.Fields n

/-- Modelled from the spec: `Visualize` on the nodes and the key expressions of
the example language that are not a `GroupBy`: a node named after the kind. -/
def exampleVisualize : VisualizeMethods PlanNode VariableName :=
  { nodeVisualize := fun n =>
      match n with
      | PlanNode.scan table => GraphNode.mk "Scan" [("table", table)] []
      | PlanNode.filter _ => graph.NewNode "Filter"
      | PlanNode.groupBy _ _ _ _ _ => graph.NewNode "Group By"
    exprVisualize := fun v => GraphNode.mk "Variable" [("name", v.name)] [] }

/-! ## `GroupBy.Metadata` -/

/-- No amount of fuel lets `GroupBy.Metadata` return: every call makes the same
call again. -/
theorem GroupBy.Metadata_eq_none {N E : Type} (fuel : Nat) (node : GroupBy N E) :
    GroupBy.Metadata fuel node = none := by
  induction fuel with
  | zero => rfl
  | succ k ih => simp [GroupBy.Metadata, ih]

/-- C1 fails on the code: for every `GroupBy` node, whatever its source, no
call of `GroupBy.Metadata` returns a `NodeMetadata`, with any bound on the depth
of the calls, so none with a cardinality of at most `BoundedFitsInLocalStorage`
is returned: line 97 calls `node.Metadata()` on the receiver itself. -/
theorem GroupBy_Metadata_no_bounded_result {N E : Type} (node : GroupBy N E) :
    ¬ ∃ fuel m, GroupBy.Metadata fuel node = some m ∧
        m.Cardinality ≤ Cardinality.BoundedFitsInLocalStorage := by
  rintro ⟨fuel, m, h, _⟩
  rw [GroupBy.Metadata_eq_none] at h
  cases h

/-- C2 fails on the code: for every `GroupBy` node and every bound on the depth
of the calls, `GroupBy.Metadata` returns nothing, because line 97 calls
`node.Metadata()` on the receiver itself and not on its source. -/
theorem GroupBy_Metadata_never_returns {N E : Type} (fuel : Nat) (node : GroupBy N E) :
    GroupBy.Metadata fuel node = none :=
  GroupBy.Metadata_eq_none fuel node

/-! ## `GroupBy.Materialize` -/

section Materialize

variable {N E XN XE P : Type}

/-- The prototype loop looks every kind up, position by position. -/
theorem GroupBy.Materialize.prototypes_eq_map (I : MaterializeMethods N E XN XE P)
    (l : List Aggregate) :
    GroupBy.Materialize.prototypes I l
      = l.map (fun a => mapIndex I.AggregateTable I.nilPrototype a.kind) := by
  induction l with
  | nil => rfl
  | cons a rest ih => simp [GroupBy.Materialize.prototypes, ih]

/-- When every key expression materializes, the key loop returns the list of
the materialized expressions, position by position. -/
theorem GroupBy.Materialize.keys_ok (I : MaterializeMethods N E XN XE P) (l : List E)
    (h : ∀ e ∈ l, ∃ x, I.exprMaterialize e = Except.ok x) (k : Nat) :
    ∃ key, GroupBy.Materialize.keys I k l = Except.ok key ∧
      List.Forall₂ (fun e x => I.exprMaterialize e = Except.ok x) l key := by
  induction l generalizing k with
  | nil => exact ⟨[], rfl, List.Forall₂.nil⟩
  | cons e rest ih =>
    obtain ⟨x, hx⟩ := h e (List.mem_cons_self e rest)
    obtain ⟨key, hkey, hall⟩ := ih (fun a ha => h a (List.mem_cons_of_mem e ha)) (k + 1)
    exact ⟨x :: key, by simp [GroupBy.Materialize.keys, hx, hkey], List.Forall₂.cons hx hall⟩

/-- The key loop depends on the methods only through `exprMaterialize`. -/
theorem GroupBy.Materialize.keys_materialize_congr (I J : MaterializeMethods N E XN XE P)
    (h : ∀ e, I.exprMaterialize e = J.exprMaterialize e) (k : Nat) (l : List E) :
    GroupBy.Materialize.keys I k l = GroupBy.Materialize.keys J k l := by
  induction l generalizing k with
  | nil => rfl
  | cons e rest ih => simp only [GroupBy.Materialize.keys, h, ih]

/-- The key loop stops at the first expression that fails and wraps its error
with the index of that expression. -/
theorem GroupBy.Materialize.keys_error (I : MaterializeMethods N E XN XE P) (l : List E)
    (i : Nat) (hi : i < l.length) (err : Error)
    (hfail : I.exprMaterialize l[i] = Except.error err)
    (hbefore : ∀ j (hj : j < i), ∃ x, I.exprMaterialize (l[j]) = Except.ok x) (k : Nat) :
    GroupBy.Materialize.keys I k l
      = Except.error (Error.Wrap err
          ("couldn't materialize group key expression with index " ++ toString (k + i))) := by
  induction l generalizing i k with
  | nil => simp at hi
  | cons e rest ih =>
    cases i with
    | zero =>
      simp only [List.getElem_cons_zero] at hfail
      simp [GroupBy.Materialize.keys, hfail]
    | succ i =>
      obtain ⟨x, hx⟩ := hbefore 0 (Nat.succ_pos i)
      simp only [List.getElem_cons_zero] at hx
      have hi1 : i < rest.length := by simpa using hi
      have hrest := ih i hi1 (by simpa using hfail)
        (fun j hj => by simpa using hbefore (j + 1) (Nat.succ_lt_succ hj)) (k + 1)
      simp only [GroupBy.Materialize.keys, hx, hrest]
      rw [show k + 1 + i = k + (i + 1) by omega]

/-- `GroupBy.Materialize` depends on the methods only through the
materialization of the source and the other four components. -/
theorem GroupBy.Materialize_congr (I J : MaterializeMethods N E XN XE P) (node : GroupBy N E)
    (hn : I.nodeMaterialize node.Source = J.nodeMaterialize node.Source)
    (he : ∀ e, I.exprMaterialize e = J.exprMaterialize e)
    (ht : I.AggregateTable = J.AggregateTable) (hz : I.nilPrototype = J.nilPrototype)
    (hc : I.NewGroupBy = J.NewGroupBy) :
    GroupBy.Materialize I node = GroupBy.Materialize J node := by
  simp only [GroupBy.Materialize, GroupBy.Materialize.prototypes_eq_map,
    GroupBy.Materialize.keys_materialize_congr I J he, hn, ht, hz, hc]

end Materialize

section MaterializeClaims

variable {N E XN XE P : Type}

/-- A successful `GroupBy.Materialize` in full: the operator is built from the
materialized source, the materialized keys, `Fields`, the looked-up prototypes
and `As`. -/
theorem GroupBy.Materialize_ok (I : MaterializeMethods N E XN XE P) (node : GroupBy N E)
    (source : XN) (hsource : I.nodeMaterialize node.Source = Except.ok source)
    (hkeys : ∀ e ∈ node.Key, ∃ x, I.exprMaterialize e = Except.ok x) :
    ∃ key, GroupBy.Materialize I node
        = Except.ok (I.NewGroupBy source key node.Fields
            (node.Aggregates.map (fun a => mapIndex I.AggregateTable I.nilPrototype a.kind))
            node.As) ∧
      List.Forall₂ (fun e x => I.exprMaterialize e = Except.ok x) node.Key key := by
  obtain ⟨key, hkey, hall⟩ := GroupBy.Materialize.keys_ok I node.Key hkeys 0
  refine ⟨key, ?_, hall⟩
  simp [GroupBy.Materialize, hsource, hkey, GroupBy.Materialize.prototypes_eq_map]

/-- C3, as stated, fails. The kind `"median"` is not a key of the registry, the
source and the key materialize, and `GroupBy.Materialize` returns the operator,
with the nil prototype for that kind, and no error. -/
theorem GroupBy_Materialize_unregistered_counterexample :
    exampleTable "median" = none ∧
      GroupBy.Materialize planMaterialize
          (NewGroupBy (PlanNode.scan "t") [NewVariableName "k"] [NewVariableName "x"]
            [Aggregate.mk "median"] [NewVariableName ""])
        = Except.ok (ExecNode.groupBy (ExecNode.scan "t") [NewVariableName "k"]
            [NewVariableName "x"] [none] [NewVariableName ""]) := by
  constructor
  · decide
  · rfl

/-- C3, amended: when the source and every key expression materialize,
`GroupBy.Materialize` returns no error even if a kind of `Aggregates` is not a
key of the registry; it returns the grouping operator, whose prototype at the
position of such a kind is the zero value of the lookup (a nil prototype). -/
theorem GroupBy_Materialize_unregistered_kind (I : MaterializeMethods N E XN XE P)
    (node : GroupBy N E) (source : XN)
    (hsource : I.nodeMaterialize node.Source = Except.ok source)
    (hkeys : ∀ e ∈ node.Key, ∃ x, I.exprMaterialize e = Except.ok x)
    (i : Nat) (hi : i < node.Aggregates.length)
    (hkind : I.AggregateTable node.Aggregates[i].kind = none) :
    ∃ key prototypes,
      GroupBy.Materialize I node
        = Except.ok (I.NewGroupBy source key node.Fields prototypes node.As) ∧
      prototypes.length = node.Aggregates.length ∧
      prototypes[i]? = some I.nilPrototype := by
  obtain ⟨key, hret, _⟩ := GroupBy.Materialize_ok I node source hsource hkeys
  refine ⟨key, _, hret, by simp, ?_⟩
  simp [List.getElem?_map, List.getElem?_eq_getElem hi, mapIndex, hkind]

/-- An instance of C3 as amended, on the example language. -/
theorem GroupBy_Materialize_unregistered_kind_witness :
    ∃ key prototypes,
      GroupBy.Materialize planMaterialize
          (NewGroupBy (PlanNode.scan "t") [NewVariableName "k"] [NewVariableName "x"]
            [Aggregate.mk "median"] [NewVariableName ""])
        = Except.ok (ExecNode.groupBy (ExecNode.scan "t") key [NewVariableName "x"] prototypes
            [NewVariableName ""]) ∧
      prototypes.length = 1 ∧ prototypes[0]? = some none :=
  GroupBy_Materialize_unregistered_kind planMaterialize
    (NewGroupBy (PlanNode.scan "t") [NewVariableName "k"] [NewVariableName "x"]
      [Aggregate.mk "median"] [NewVariableName ""])
    (ExecNode.scan "t") rfl
    (by
      intro e he
      simp only [NewGroupBy, List.mem_singleton] at he
      subst he
      exact ⟨NewVariableName "k", rfl⟩)
    0 (by decide) (by decide)

/-- C4: when the source materializes and the key expression at index `i` is the
first one that fails, with error `err`, `GroupBy.Materialize` returns no
operator and the error `err` wrapped with the message "couldn't materialize
group key expression with index i"; nothing is assumed about the expressions
after index `i`. -/
theorem GroupBy_Materialize_first_key_error (I : MaterializeMethods N E XN XE P)
    (node : GroupBy N E) (source : XN)
    (hsource : I.nodeMaterialize node.Source = Except.ok source)
    (i : Nat) (hi : i < node.Key.length) (err : Error)
    (hfail : I.exprMaterialize node.Key[i] = Except.error err)
    (hbefore : ∀ j (hj : j < i), ∃ x, I.exprMaterialize (node.Key[j]) = Except.ok x) :
    GroupBy.Materialize I node
      = Except.error (Error.Wrap err
          ("couldn't materialize group key expression with index " ++ toString i)) := by
  have h := GroupBy.Materialize.keys_error I node.Key i hi err hfail hbefore 0
  simp only [Nat.zero_add] at h
  simp [GroupBy.Materialize, hsource, h]

/-- An instance of C4: of the keys `k`, unnamed, `m`, unnamed, the one at index
1 is the first to fail; the failure at index 3 does not show. -/
theorem GroupBy_Materialize_first_key_error_witness :
    GroupBy.Materialize planMaterialize
        (NewGroupBy (PlanNode.scan "t")
          [NewVariableName "k", NewVariableName "", NewVariableName "m", NewVariableName ""]
          [] [] [])
      = Except.error (Error.Wrap (Error.Errorf "unnamed variable")
          ("couldn't materialize group key expression with index " ++ toString 1)) :=
  GroupBy_Materialize_first_key_error planMaterialize
    (NewGroupBy (PlanNode.scan "t")
      [NewVariableName "k", NewVariableName "", NewVariableName "m", NewVariableName ""]
      [] [] [])
    (ExecNode.scan "t") rfl 1 (by decide) (Error.Errorf "unnamed variable") rfl
    (by
      intro j hj
      have hj0 : j = 0 := by omega
      subst hj0
      exact ⟨NewVariableName "k", rfl⟩)

/-- C5: when the source and every key expression materialize,
`GroupBy.Materialize` returns the operator `execution.NewGroupBy` builds from
the materialized source, a key list as long as `Key` whose entry `i` is the
materialization of `Key[i]`, `Fields` unchanged, a prototype list as long as
`Aggregates` whose entry `i` is the entry of the registry for `Aggregates[i]`
(for a kind that is not a key of the registry, the nil prototype a Go map index
gives), and `As` unchanged. -/
theorem GroupBy_Materialize_builds_operator (I : MaterializeMethods N E XN XE P)
    (node : GroupBy N E) (source : XN)
    (hsource : I.nodeMaterialize node.Source = Except.ok source)
    (hkeys : ∀ e ∈ node.Key, ∃ x, I.exprMaterialize e = Except.ok x) :
    ∃ key prototypes,
      GroupBy.Materialize I node
        = Except.ok (I.NewGroupBy source key node.Fields prototypes node.As) ∧
      key.length = node.Key.length ∧
      (∀ i (hi : i < node.Key.length),
        ∃ x, I.exprMaterialize node.Key[i] = Except.ok x ∧ key[i]? = some x) ∧
      prototypes.length = node.Aggregates.length ∧
      (∀ i (hi : i < node.Aggregates.length),
        (∀ p, I.AggregateTable node.Aggregates[i].kind = some p → prototypes[i]? = some p) ∧
        (I.AggregateTable node.Aggregates[i].kind = none →
          prototypes[i]? = some I.nilPrototype)) := by
  obtain ⟨key, hret, hall⟩ := GroupBy.Materialize_ok I node source hsource hkeys
  have hlen := hall.length_eq
  refine ⟨key, _, hret, hlen.symm, ?_, by simp, ?_⟩
  · intro i hi
    have hi2 : i < key.length := hlen ▸ hi
    refine ⟨key[i], ?_, List.getElem?_eq_getElem hi2⟩
    simpa using hall.get hi hi2
  · intro i hi
    constructor
    · intro p hp
      simp [List.getElem?_map, List.getElem?_eq_getElem hi, mapIndex, hp]
    · intro hp
      simp [List.getElem?_map, List.getElem?_eq_getElem hi, mapIndex, hp]

/-- An instance of C5 on the example language: the keys `k` and `m` and the
aggregates `sum` and `count` give the operator with those two keys and the two
constructors the registry has for `sum` and `count`. -/
theorem GroupBy_Materialize_builds_operator_witness :
    GroupBy.Materialize planMaterialize
        (NewGroupBy (PlanNode.filter (PlanNode.scan "t"))
          [NewVariableName "k", NewVariableName "m"]
          [NewVariableName "x", NewVariableName "y"]
          [Aggregate.mk "sum", Aggregate.mk "count"]
          [NewVariableName "total", NewVariableName ""])
      = Except.ok (ExecNode.groupBy (ExecNode.filter (ExecNode.scan "t"))
          [NewVariableName "k", NewVariableName "m"]
          [NewVariableName "x", NewVariableName "y"] [some "sum", some "count"]
          [NewVariableName "total", NewVariableName ""]) := by
  obtain ⟨key, prototypes, hret, hklen, hk, hplen, hp⟩ :=
    GroupBy_Materialize_builds_operator planMaterialize
      (NewGroupBy (PlanNode.filter (PlanNode.scan "t"))
        [NewVariableName "k", NewVariableName "m"]
        [NewVariableName "x", NewVariableName "y"]
        [Aggregate.mk "sum", Aggregate.mk "count"]
        [NewVariableName "total", NewVariableName ""])
      (ExecNode.filter (ExecNode.scan "t")) rfl
      (by
        intro e he
        simp only [NewGroupBy, List.mem_cons, List.mem_singleton, List.not_mem_nil,
          or_false] at he
        rcases he with rfl | rfl
        · exact ⟨NewVariableName "k", rfl⟩
        · exact ⟨NewVariableName "m", rfl⟩)
  have hp0 := (hp 0 (by decide)).1 (some "sum") (by decide)
  have hp1 := (hp 1 (by decide)).1 (some "count") (by decide)
  obtain ⟨x0, hx0, hk0⟩ := hk 0 (by decide)
  obtain ⟨x1, hx1, hk1⟩ := hk 1 (by decide)
  have hx0v : x0 = NewVariableName "k" := by
    have h : exampleExprMaterialize (NewVariableName "k") = Except.ok x0 := hx0
    have h2 : exampleExprMaterialize (NewVariableName "k") = Except.ok (NewVariableName "k") := rfl
    rw [h2] at h
    exact (Except.ok.inj h).symm
  have hx1v : x1 = NewVariableName "m" := by
    have h : exampleExprMaterialize (NewVariableName "m") = Except.ok x1 := hx1
    have h2 : exampleExprMaterialize (NewVariableName "m") = Except.ok (NewVariableName "m") := rfl
    rw [h2] at h
    exact (Except.ok.inj h).symm
  subst hx0v hx1v
  have hkey : key = [NewVariableName "k", NewVariableName "m"] := by
    match key, hklen, hk0, hk1 with
    | [a, b], _, h0, h1 =>
      simp only [List.getElem?_cons_zero, List.getElem?_cons_succ, Option.some.injEq] at h0 h1
      rw [h0, h1]
  have hprot : prototypes = [some "sum", some "count"] := by
    match prototypes, hplen, hp0, hp1 with
    | [a, b], _, h0, h1 =>
      simp only [List.getElem?_cons_zero, List.getElem?_cons_succ, Option.some.injEq] at h0 h1
      rw [h0, h1]
  rw [hret, hkey, hprot]
  rfl

end MaterializeClaims

/-! ## `GroupBy.Transform` and `NewGroupBy` -/

section Transform

variable {σ N E : Type}

/-- The key loop returns as many expressions as it was given. -/
theorem GroupBy.Transform.keys_length (I : TransformMethods σ N E) (t : Transformers σ N)
    (l : List E) (s : σ) : (GroupBy.Transform.keys I t l s).1.length = l.length := by
  induction l generalizing s with
  | nil => rfl
  | cons e rest ih => simp [GroupBy.Transform.keys, ih]

/-- When the transformation of each key expression returns the expression, the
key loop returns the key list. -/
theorem GroupBy.Transform.keys_fixed (I : TransformMethods σ N E) (t : Transformers σ N)
    (l : List E) (h : ∀ e ∈ l, ∀ x, (I.exprTransform e t x).1 = e) (s : σ) :
    (GroupBy.Transform.keys I t l s).1 = l := by
  induction l generalizing s with
  | nil => rfl
  | cons e rest ih =>
    simp only [GroupBy.Transform.keys]
    rw [h e (List.mem_cons_self e rest), ih (fun a ha => h a (List.mem_cons_of_mem e ha))]

/-- The key loop depends on the methods only through `exprTransform`. -/
theorem GroupBy.Transform.keys_transform_congr (I J : TransformMethods σ N E)
    (h : ∀ e t x, I.exprTransform e t x = J.exprTransform e t x) (t : Transformers σ N)
    (l : List E) (s : σ) :
    GroupBy.Transform.keys I t l s = GroupBy.Transform.keys J t l s := by
  induction l generalizing s with
  | nil => rfl
  | cons e rest ih => simp only [GroupBy.Transform.keys, h, ih]

/-- `GroupBy.Transform` depends on the methods only through the transformation
of the source, the transformation of expressions and the conversion to a node. -/
theorem GroupBy.Transform_congr (I J : TransformMethods σ N E) (node : GroupBy N E)
    (hn : ∀ t x, I.nodeTransform node.Source t x = J.nodeTransform node.Source t x)
    (he : ∀ e t x, I.exprTransform e t x = J.exprTransform e t x)
    (ha : ∀ g, I.asNode g = J.asNode g) (t : Transformers σ N) (s : σ) :
    GroupBy.Transform I node t s = GroupBy.Transform J node t s := by
  simp only [GroupBy.Transform, GroupBy.Transform.built,
    GroupBy.Transform.keys_transform_congr I J he, hn, ha]

/-- `GroupBy.Transform` hands the node it built to the callback, when there is
one, and returns it as it is otherwise. -/
theorem GroupBy.Transform_eq_applyNodeT (I : TransformMethods σ N E) (node : GroupBy N E)
    (t : Transformers σ N) (s : σ) :
    GroupBy.Transform I node t s
      = applyNodeT t (I.asNode (GroupBy.Transform.built I node t s).1)
          (GroupBy.Transform.built I node t s).2 := by
  unfold GroupBy.Transform applyNodeT
  cases t.NodeT <;> rfl

/-- On the example language, `Transform` on a `GroupBy` node is the embedded
`GroupBy.Transform` with the methods of the language. -/
theorem PlanNode.Transform_groupBy (source : PlanNode) (key fields : List VariableName)
    (aggregates : List Aggregate) (as : List VariableName) (t : Transformers σ PlanNode) (s : σ) :
    PlanNode.Transform (PlanNode.groupBy source key fields aggregates as) t s
      = GroupBy.Transform (planTransform σ)
          { Source := source, Key := key, Fields := fields, Aggregates := aggregates, As := as }
          t s := by
  rw [PlanNode.Transform]
  apply GroupBy.Transform_congr <;> intros <;> rfl

/-- On the example language, `Materialize` on a `GroupBy` node is the embedded
`GroupBy.Materialize` with the methods of the language. -/
theorem PlanNode.Materialize_groupBy (source : PlanNode) (key fields : List VariableName)
    (aggregates : List Aggregate) (as : List VariableName) :
    PlanNode.Materialize (PlanNode.groupBy source key fields aggregates as)
      = GroupBy.Materialize planMaterialize
          { Source := source, Key := key, Fields := fields, Aggregates := aggregates, As := as } := by
  rw [PlanNode.Materialize]
  apply GroupBy.Materialize_congr <;> intros <;> rfl

/-- C6: with the empty visitor bundle, when the transformation of the source
and of each key expression returns an equal value, `GroupBy.Transform` builds a
`GroupBy` equal to the receiver (source, key list, `Fields`, `Aggregates` and
`As`) and returns it. -/
theorem GroupBy_Transform_empty_bundle (I : TransformMethods σ N E) (node : GroupBy N E) (s : σ)
    (hsource : ∀ x, (I.nodeTransform node.Source Transformers.empty x).1 = node.Source)
    (hkeys : ∀ e ∈ node.Key, ∀ x, (I.exprTransform e Transformers.empty x).1 = e) :
    (GroupBy.Transform.built I node Transformers.empty s).1 = node ∧
      (GroupBy.Transform I node Transformers.empty s).1 = I.asNode node := by
  have hb : (GroupBy.Transform.built I node Transformers.empty s).1 = node := by
    obtain ⟨source, key, fields, aggregates, as⟩ := node
    simp only [GroupBy.Transform.built]
    rw [hsource, GroupBy.Transform.keys_fixed I Transformers.empty key hkeys]
  refine ⟨hb, ?_⟩
  rw [GroupBy.Transform_eq_applyNodeT, hb]
  rfl

/-- An instance of C6 on the example language. -/
theorem GroupBy_Transform_empty_bundle_witness :
    (GroupBy.Transform.built (planTransform Unit)
        (NewGroupBy (PlanNode.filter (PlanNode.scan "t")) [NewVariableName "k"]
          [NewVariableName "x"] [Aggregate.mk "sum"] [NewVariableName "total"])
        Transformers.empty ()).1
      = NewGroupBy (PlanNode.filter (PlanNode.scan "t")) [NewVariableName "k"]
          [NewVariableName "x"] [Aggregate.mk "sum"] [NewVariableName "total"] ∧
    (GroupBy.Transform (planTransform Unit)
        (NewGroupBy (PlanNode.filter (PlanNode.scan "t")) [NewVariableName "k"]
          [NewVariableName "x"] [Aggregate.mk "sum"] [NewVariableName "total"])
        Transformers.empty ()).1
      = PlanNode.groupBy (PlanNode.filter (PlanNode.scan "t")) [NewVariableName "k"]
          [NewVariableName "x"] [Aggregate.mk "sum"] [NewVariableName "total"] :=
  GroupBy_Transform_empty_bundle (planTransform Unit)
    (NewGroupBy (PlanNode.filter (PlanNode.scan "t")) [NewVariableName "k"]
      [NewVariableName "x"] [Aggregate.mk "sum"] [NewVariableName "total"])
    () (fun _ => rfl) (fun _ _ _ => rfl)

/-- C7: with a node callback that records the nodes it is called on,
`GroupBy.Transform` transforms the key expressions, then the source, and only
then calls the callback, on the `GroupBy` it built: the record it leaves is the
record left by the transformation of the keys and of the source, followed by
that one node, which is therefore the last one recorded. On `GroupBy(Source = Filter(Source = Scan))` the nodes recorded
are the scan, the filter and the `GroupBy`, in this order. -/
theorem GroupBy_Transform_callback_last :
    (∀ (N E : Type) (I : TransformMethods (List N) N E) (node : GroupBy N E) (f : N → N)
        (seen : List N),
        GroupBy.Transform I node { NodeT := some (recorder f) } seen
          = (f (I.asNode
                { Source := (I.nodeTransform node.Source { NodeT := some (recorder f) }
                    (GroupBy.Transform.keys I { NodeT := some (recorder f) } node.Key seen).2).1
                  Key := (GroupBy.Transform.keys I { NodeT := some (recorder f) } node.Key seen).1
                  Fields := node.Fields
                  Aggregates := node.Aggregates
                  As := node.As }),
             (I.nodeTransform node.Source { NodeT := some (recorder f) }
                (GroupBy.Transform.keys I { NodeT := some (recorder f) } node.Key seen).2).2
              ++ [I.asNode
                { Source := (I.nodeTransform node.Source { NodeT := some (recorder f) }
                    (GroupBy.Transform.keys I { NodeT := some (recorder f) } node.Key seen).2).1
                  Key := (GroupBy.Transform.keys I { NodeT := some (recorder f) } node.Key seen).1
                  Fields := node.Fields
                  Aggregates := node.Aggregates
                  As := node.As }]) ∧
          (GroupBy.Transform I node { NodeT := some (recorder f) } seen).2.getLast?
            = some (I.asNode (GroupBy.Transform.built I node
                { NodeT := some (recorder f) } seen).1)) ∧
      (GroupBy.Transform (planTransform (List PlanNode))
          (NewGroupBy (PlanNode.filter (PlanNode.scan "t")) [NewVariableName "k"]
            [NewVariableName "x"] [Aggregate.mk "sum"] [NewVariableName "total"])
          { NodeT := some (recorder fun n => n) } []).2
        = [PlanNode.scan "t",
           PlanNode.filter (PlanNode.scan "t"),
           PlanNode.groupBy (PlanNode.filter (PlanNode.scan "t")) [NewVariableName "k"]
             [NewVariableName "x"] [Aggregate.mk "sum"] [NewVariableName "total"]] := by
  refine ⟨fun N E I node f seen => ⟨rfl, ?_⟩, rfl⟩
  rw [GroupBy.Transform_eq_applyNodeT]
  simp [applyNodeT, recorder]

/-- C8, as stated, fails. `NewGroupBy` given one field name, no aggregate and
no alias returns a node with `len(Fields) = 1` and `len(Aggregates) = 0`. -/
theorem NewGroupBy_lengths_counterexample :
    ¬ (NewGroupBy (PlanNode.scan "t") ([] : List VariableName) [NewVariableName "x"]
        [] []).lengthsAgree := by
  decide

/-- C8, amended: `NewGroupBy` stores the three lists it is given, so its node
satisfies `len(Fields) == len(Aggregates) == len(As)` exactly when the
arguments do; and the `GroupBy` that `GroupBy.Transform` builds (handed to the
callback, or returned when there is none) has the `Fields`, `Aggregates` and
`As` of the receiver, so it satisfies the invariant exactly when the receiver
does. -/
theorem GroupBy_lengths_kept :
    (∀ (N E : Type) (source : N) (key : List E) (fields : List VariableName)
        (aggregates : List Aggregate) (as : List VariableName),
        (NewGroupBy source key fields aggregates as).Fields = fields ∧
        (NewGroupBy source key fields aggregates as).Aggregates = aggregates ∧
        (NewGroupBy source key fields aggregates as).As = as ∧
        ((NewGroupBy source key fields aggregates as).lengthsAgree ↔
          fields.length = aggregates.length ∧ aggregates.length = as.length)) ∧
      (∀ (σ N E : Type) (I : TransformMethods σ N E) (node : GroupBy N E)
        (t : Transformers σ N) (s : σ),
        GroupBy.Transform I node t s
            = applyNodeT t (I.asNode (GroupBy.Transform.built I node t s).1)
                (GroupBy.Transform.built I node t s).2 ∧
        (GroupBy.Transform.built I node t s).1.Fields = node.Fields ∧
        (GroupBy.Transform.built I node t s).1.Aggregates = node.Aggregates ∧
        (GroupBy.Transform.built I node t s).1.As = node.As ∧
        ((GroupBy.Transform.built I node t s).1.lengthsAgree ↔ node.lengthsAgree)) := by
  refine ⟨fun N E source key fields aggregates as => ⟨rfl, rfl, rfl, Iff.rfl⟩, ?_⟩
  intro σ N E I node t s
  exact ⟨GroupBy.Transform_eq_applyNodeT I node t s, rfl, rfl, rfl, Iff.rfl⟩

end Transform

/-! ## The JSON sink -/

section Sink

variable {ω R V Raw : Type}

/-- With a succeeding writer, the delimiter step writes its byte, sets
`firstRecordWritten` and reports no error. -/
theorem Output.WriteRecord.delimiter_ok (I : SinkMethods ω R V Raw) (bytes : ω → List Char)
    (enc : R → List Char) (h : Succeeds I bytes enc) (o : Output ω) :
    (Output.WriteRecord.delimiter I o).2 = none ∧
      (Output.WriteRecord.delimiter I o).1.firstRecordWritten = true ∧
      bytes (Output.WriteRecord.delimiter I o).1.w = bytes o.w ++ [o.delimiterByte] := by
  obtain ⟨w, first⟩ := o
  cases first
  · obtain ⟨hb, hn, he⟩ := h.1 w '['
    simp [Output.WriteRecord.delimiter, Output.delimiterByte, hb, hn, he]
  · obtain ⟨hb, hn, he⟩ := h.1 w ','
    simp [Output.WriteRecord.delimiter, Output.delimiterByte, hb, hn, he]

/-- With a succeeding writer and encoder, `WriteRecord` writes its delimiter
and the encoding of the record, and reports no error. -/
theorem Output.WriteRecord_ok (I : SinkMethods ω R V Raw) (bytes : ω → List Char)
    (enc : R → List Char) (h : Succeeds I bytes enc) (o : Output ω) (record : R) :
    (Output.WriteRecord I o record).2 = none ∧
      (Output.WriteRecord I o record).1.firstRecordWritten = true ∧
      bytes (Output.WriteRecord I o record).1.w
        = bytes o.w ++ o.delimiterByte :: enc record := by
  obtain ⟨hd, hf, hb⟩ := Output.WriteRecord.delimiter_ok I bytes enc h o
  generalize hdel : Output.WriteRecord.delimiter I o = d at hd hf hb
  obtain ⟨o1, e1⟩ := d
  simp only at hd hf hb
  subst hd
  obtain ⟨hbe, hee⟩ := h.2 o1.w record
  simp [Output.WriteRecord, hdel, hee, hbe, hb, hf]

/-- With a succeeding writer and encoder, the records written after the first
each add a comma and their encoding. -/
theorem Output.writeRecords_ok (I : SinkMethods ω R V Raw) (bytes : ω → List Char)
    (enc : R → List Char) (h : Succeeds I bytes enc) (records : List R) (o : Output ω)
    (hfirst : o.firstRecordWritten = true) :
    (Output.writeRecords I o records).2 = none ∧
      bytes (Output.writeRecords I o records).1.w
        = bytes o.w ++ (records.map (fun r => ',' :: enc r)).flatten := by
  induction records generalizing o with
  | nil => simp [Output.writeRecords]
  | cons r rest ih =>
    obtain ⟨he, hf, hb⟩ := Output.WriteRecord_ok I bytes enc h o r
    generalize hwr : Output.WriteRecord I o r = x at he hf hb
    obtain ⟨o1, e1⟩ := x
    simp only at he hf hb
    subst he
    obtain ⟨ihe, ihb⟩ := ih o1 hf
    simp [Output.writeRecords, hwr, ihe, ihb, hb, Output.delimiterByte, hfirst]

/-- C9: on a fresh `Output`, with a writer and an encoder that succeed, writing
the records `first :: rest` and closing reports no error and writes `[`, the
encoding of `first`, then for each later record `,` and its encoding, then `]`;
beside the encodings the sink adds one byte per record and one more (one `[`,
a `,` for each record but the first, one `]`). -/
theorem Output_run_framing (I : SinkMethods ω R V Raw) (bytes : ω → List Char)
    (enc : R → List Char) (h : Succeeds I bytes enc) (w : ω) (first : R) (rest : List R) :
    (Output.run I w (first :: rest)).2 = none ∧
      bytes (Output.run I w (first :: rest)).1.w
        = bytes w ++ ('[' :: enc first ++ (rest.map (fun r => ',' :: enc r)).flatten ++ [']']) ∧
      (bytes (Output.run I w (first :: rest)).1.w).length
        = (bytes w).length + ((first :: rest).map (fun r => (enc r).length)).sum
            + ((first :: rest).length + 1) := by
  obtain ⟨he, hf, hb⟩ := Output.WriteRecord_ok I bytes enc h (NewOutput w) first
  generalize hwr : Output.WriteRecord I (NewOutput w) first = x at he hf hb
  obtain ⟨o1, e1⟩ := x
  simp only at he hf hb
  subst he
  obtain ⟨hre, hrb⟩ := Output.writeRecords_ok I bytes enc h rest o1 hf
  generalize hws : Output.writeRecords I o1 rest = y at hre hrb
  obtain ⟨o2, e2⟩ := y
  simp only at hre hrb
  subst hre
  obtain ⟨hcb, hcn, hce⟩ := h.1 o2.w ']'
  have hrun : Output.run I w (first :: rest) = Output.Close I o2 := by
    simp [Output.run, Output.writeRecords, hwr, hws]
  have hclose : (Output.Close I o2).2 = none ∧
      bytes (Output.Close I o2).1.w = bytes o2.w ++ [']'] := by
    simp [Output.Close, hcb, hcn, hce]
  have hbytes : bytes (Output.run I w (first :: rest)).1.w
      = bytes w ++ ('[' :: enc first ++ (rest.map (fun r => ',' :: enc r)).flatten ++ [']']) := by
    rw [hrun, hclose.2, hrb, hb]
    simp [Output.delimiterByte, NewOutput]
  refine ⟨by rw [hrun]; exact hclose.1, hbytes, ?_⟩
  rw [hbytes]
  have hlen : ∀ l : List R, ((l.map (fun r => ',' :: enc r)).flatten).length
      = (l.map (fun r => (enc r).length)).sum + l.length := by
    intro l
    induction l with
    | nil => rfl
    | cons a t ih => simp [ih]; omega
  simp [hlen]
  omega

/-- An instance of C9 on the in-memory buffer: two records, whose values under
`"n"` contain a bracket and a comma. -/
theorem Output_run_framing_witness :
    (Output.run bufferSink [] [[("n", "[1")], [("n", "2,")]]).2 = none ∧
      (Output.run bufferSink [] [[("n", "[1")], [("n", "2,")]]).1.w
        = ['[', '[', '1', '\n', ',', '2', ',', '\n', ']'] ∧
      ((Output.run bufferSink [] [[("n", "[1")], [("n", "2,")]]).1.w).length = 0 + (3 + (3 + 0)) + (2 + 1) :=
  Output_run_framing bufferSink (fun w => w)
    (fun r => exampleEncoding (Output.WriteRecord.kvs bufferSink r))
    ⟨fun _ _ => ⟨rfl, rfl, rfl⟩, fun _ _ => ⟨rfl, rfl⟩⟩ [] [("n", "[1")] [[("n", "2,")]]

/-- C10: a short write of a delimiter (no error reported, a byte count other
than 1) makes the operation return an error, and the writer is left as that
one write left it, so nothing is encoded and no write is made again:
`WriteRecord` for the leading `[` on a fresh `Output`, `WriteRecord` for the
separating `,` afterwards, and `Close` for the trailing `]`. -/
theorem Output_short_write_is_error (I : SinkMethods ω R V Raw) (o : Output ω) (record : R) :
    (o.firstRecordWritten = false → shortWrite I o.w '[' →
        Output.WriteRecord I o record
          = ({ w := (I.Write o.w ['[']).1, firstRecordWritten := true },
             some (Error.Errorf "couldn't write leading square bracket"))) ∧
      (o.firstRecordWritten = true → shortWrite I o.w ',' →
        Output.WriteRecord I o record
          = ({ w := (I.Write o.w [',']).1, firstRecordWritten := true },
             some (Error.Errorf "couldn't write separating comma"))) ∧
      (shortWrite I o.w ']' →
        Output.Close I o
          = ({ w := (I.Write o.w [']']).1, firstRecordWritten := o.firstRecordWritten },
             some (Error.Errorf "couldn't write trailing square bracket"))) := by
  obtain ⟨w, first⟩ := o
  refine ⟨?_, ?_, ?_⟩
  · rintro hfirst ⟨he, hn⟩
    simp only at hfirst he hn
    subst hfirst
    simp [Output.WriteRecord, Output.WriteRecord.delimiter, he, hn]
  · rintro hfirst ⟨he, hn⟩
    simp only at hfirst he hn
    subst hfirst
    simp [Output.WriteRecord, Output.WriteRecord.delimiter, he, hn]
  · rintro ⟨he, hn⟩
    simp only at he hn
    simp [Output.Close, he, hn]

/-- An instance of C10 on the writer that accepts no byte: after each failing
operation the calls made on the writer are the one write of the delimiter. -/
theorem Output_short_write_is_error_witness :
    Output.WriteRecord shortSink (NewOutput []) [("n", "1")]
        = ({ w := [Call.Write ['[']], firstRecordWritten := true },
           some (Error.Errorf "couldn't write leading square bracket")) ∧
      Output.WriteRecord shortSink { w := [], firstRecordWritten := true } [("n", "1")]
        = ({ w := [Call.Write [',']], firstRecordWritten := true },
           some (Error.Errorf "couldn't write separating comma")) ∧
      Output.Close shortSink { w := [], firstRecordWritten := true }
        = ({ w := [Call.Write [']']], firstRecordWritten := true },
           some (Error.Errorf "couldn't write trailing square bracket")) :=
  ⟨(Output_short_write_is_error shortSink (NewOutput []) [("n", "1")]).1 rfl ⟨rfl, by decide⟩,
   (Output_short_write_is_error shortSink { w := [], firstRecordWritten := true }
      [("n", "1")]).2.1 rfl ⟨rfl, by decide⟩,
   (Output_short_write_is_error shortSink { w := [], firstRecordWritten := true }
      [("n", "1")]).2.2 ⟨rfl, by decide⟩⟩

end Sink

/-! ## The leading-key hint of `GroupBy.Metadata` -/

/-- C12 fails on the code: on `GroupBy(Source = Scan)` no call of
`GroupBy.Metadata` returns, whatever the bound on the depth of the calls, so no
`NodeMetadata` with an empty leading-key hint is returned; lines 98-101 do
build the metadata with the empty hint, from whatever metadata line 97 would
hand them. -/
theorem GroupBy_Metadata_hint_not_returned :
    (∀ fuel, GroupBy.Metadata fuel
        (NewGroupBy (PlanNode.scan "t") ([] : List VariableName) [] [] []) = none) ∧
      (∀ m, (GroupBy.Metadata.body m).leadingKey = NewVariableName "") :=
  ⟨fun fuel => GroupBy.Metadata_eq_none fuel _, fun _ => rfl⟩

/-! ## The result of `GroupBy.Transform` -/

section TransformResult

variable {σ N E : Type}

/-- The key loop transforms the expression at index `i` in the state left by
the expressions before it. -/
theorem GroupBy.Transform.keys_getElem (I : TransformMethods σ N E) (t : Transformers σ N)
    (l : List E) (s : σ) (i : Nat) (hi : i < l.length) :
    (GroupBy.Transform.keys I t l s).1[i]?
      = some (I.exprTransform l[i] t (GroupBy.Transform.keyState I t l s i)).1 := by
  induction l generalizing s i with
  | nil => simp at hi
  | cons e rest ih =>
    cases i with
    | zero => simp [GroupBy.Transform.keys, GroupBy.Transform.keyState]
    | succ i =>
      have hi1 : i < rest.length := by simpa using hi
      simpa [GroupBy.Transform.keys, GroupBy.Transform.keyState] using ih _ i hi1

/-- C13: `GroupBy.Transform` builds the node `N` whose key list is as long as
`Key`, with `N.Key[i]` the transformation of `Key[i]`, whose source is the
transformation of `Source`, made after the keys, and whose `Fields`,
`Aggregates` and `As` are those of the receiver; it returns `f(N)` when a
callback `f` is registered, the one call of `f`, and `N` when none is. -/
theorem GroupBy_Transform_result (I : TransformMethods σ N E) (node : GroupBy N E)
    (t : Transformers σ N) (s : σ) :
    (GroupBy.Transform.built I node t s).1.Key.length = node.Key.length ∧
      (∀ i (hi : i < node.Key.length),
        (GroupBy.Transform.built I node t s).1.Key[i]?
          = some (I.exprTransform node.Key[i] t
              (GroupBy.Transform.keyState I t node.Key s i)).1) ∧
      (GroupBy.Transform.built I node t s).1.Source
        = (I.nodeTransform node.Source t (GroupBy.Transform.keys I t node.Key s).2).1 ∧
      (GroupBy.Transform.built I node t s).2
        = (I.nodeTransform node.Source t (GroupBy.Transform.keys I t node.Key s).2).2 ∧
      (GroupBy.Transform.built I node t s).1.Fields = node.Fields ∧
      (GroupBy.Transform.built I node t s).1.Aggregates = node.Aggregates ∧
      (GroupBy.Transform.built I node t s).1.As = node.As ∧
      (∀ f, t.NodeT = some f →
        GroupBy.Transform I node t s
          = f (I.asNode (GroupBy.Transform.built I node t s).1)
              (GroupBy.Transform.built I node t s).2) ∧
      (t.NodeT = none →
        GroupBy.Transform I node t s
          = (I.asNode (GroupBy.Transform.built I node t s).1,
             (GroupBy.Transform.built I node t s).2)) := by
  refine ⟨GroupBy.Transform.keys_length I t node.Key s,
    fun i hi => GroupBy.Transform.keys_getElem I t node.Key s i hi,
    rfl, rfl, rfl, rfl, rfl, ?_, ?_⟩
  · intro f hf
    rw [GroupBy.Transform_eq_applyNodeT, applyNodeT, hf]
  · intro hf
    rw [GroupBy.Transform_eq_applyNodeT, applyNodeT, hf]

/-- An instance of C13 on the example language, with a recording callback that
replaces every node by a scan of `"u"` and with no callback. -/
theorem GroupBy_Transform_result_witness :
    GroupBy.Transform (planTransform (List PlanNode))
        (NewGroupBy (PlanNode.scan "t") [NewVariableName "k"] [NewVariableName "x"]
          [Aggregate.mk "sum"] [NewVariableName "total"])
        { NodeT := some (recorder fun _ => PlanNode.scan "u") } []
      = (PlanNode.scan "u",
         [PlanNode.scan "t",
          PlanNode.groupBy (PlanNode.scan "u") [NewVariableName "k"] [NewVariableName "x"]
            [Aggregate.mk "sum"] [NewVariableName "total"]]) ∧
    GroupBy.Transform (planTransform (List PlanNode))
        (NewGroupBy (PlanNode.scan "t") [NewVariableName "k"] [NewVariableName "x"]
          [Aggregate.mk "sum"] [NewVariableName "total"])
        { NodeT := none } []
      = (PlanNode.groupBy (PlanNode.scan "t") [NewVariableName "k"] [NewVariableName "x"]
            [Aggregate.mk "sum"] [NewVariableName "total"], []) :=
  ⟨(GroupBy_Transform_result (planTransform (List PlanNode))
      (NewGroupBy (PlanNode.scan "t") [NewVariableName "k"] [NewVariableName "x"]
        [Aggregate.mk "sum"] [NewVariableName "total"])
      { NodeT := some (recorder fun _ => PlanNode.scan "u") } []).2.2.2.2.2.2.2.1 _ rfl,
   (GroupBy_Transform_result (planTransform (List PlanNode))
      (NewGroupBy (PlanNode.scan "t") [NewVariableName "k"] [NewVariableName "x"]
        [Aggregate.mk "sum"] [NewVariableName "total"])
      { NodeT := none } []).2.2.2.2.2.2.2.2 rfl⟩

end TransformResult

/-! ## The map handed to the encoder, and the sink at its edges -/

section SinkEdges

variable {ω R V Raw : Type}

/-- The map built from a list of fields, starting from a map `m`: a name of the
list has the raw value of the record under that name, any other string has the
entry of `m`. -/
theorem Output.WriteRecord.kvs_foldl (I : SinkMethods ω R V Raw) (record : R)
    (l : List Field) (m : String → Option Raw) (k : String) :
    l.foldl
        (fun kvs field =>
          mapSet kvs field.Name.String (I.ToRawValue (I.Value record field.Name))) m k
      = if k ∈ l.map (fun field => field.Name.String) then
          some (I.ToRawValue (I.Value record (NewVariableName k)))
        else m k := by
  induction l generalizing m with
  | nil => simp
  | cons f rest ih =>
    rw [List.foldl_cons, ih]
    by_cases hrest : k ∈ rest.map (fun field => field.Name.String)
    · simp [hrest]
    · by_cases hk : k = f.Name.String
      · subst hk
        simp [mapSet, NewVariableName, VariableName.String]
      · have hk2 : ¬ f.Name.String = k := fun h => hk h.symm
        simp [hrest, hk, hk2, mapSet]

/-- The map built by lines 46-49 has an entry exactly for the names of the
fields of the record, and the entry for the name of a field is the raw value of
the value the record has under that name. -/
theorem Output.WriteRecord.kvs_entries (I : SinkMethods ω R V Raw) (record : R) :
    (∀ k, Output.WriteRecord.kvs I record k ≠ none ↔
        ∃ field ∈ I.Fields record, field.Name.String = k) ∧
      (∀ field ∈ I.Fields record,
        Output.WriteRecord.kvs I record field.Name.String
          = some (I.ToRawValue (I.Value record field.Name))) := by
  constructor
  · intro k
    rw [Output.WriteRecord.kvs, Output.WriteRecord.kvs_foldl]
    by_cases h : k ∈ (I.Fields record).map (fun field => field.Name.String)
    · simp only [h, if_true, ne_eq, not_false_eq_true, true_iff, reduceCtorEq]
      obtain ⟨field, hf, hk⟩ := List.mem_map.1 h
      exact ⟨field, hf, hk⟩
    · simp only [h, if_false, ne_eq, not_true_eq_false, false_iff]
      rintro ⟨field, hf, hk⟩
      exact h (List.mem_map.2 ⟨field, hf, hk⟩)
  · intro field hf
    rw [Output.WriteRecord.kvs, Output.WriteRecord.kvs_foldl]
    have h : field.Name.String ∈ (I.Fields record).map (fun field => field.Name.String) :=
      List.mem_map.2 ⟨field, hf, rfl⟩
    rw [if_pos h]
    rfl

/-- C15: on a fresh `Output` on which `WriteRecord` was never called, `Close`
makes one write, of the byte `]`; with a writer that succeeds, the run over no
record reports no error and has written `]` and nothing else, no `[`. -/
theorem Output_Close_fresh (I : SinkMethods ω R V Raw) (bytes : ω → List Char)
    (enc : R → List Char) (h : Succeeds I bytes enc) (w : ω) :
    Output.run I w [] = Output.Close I (NewOutput w) ∧
      (Output.Close I (NewOutput w)).1.w = (I.Write w [']']).1 ∧
      (Output.Close I (NewOutput w)).2 = none ∧
      bytes (Output.Close I (NewOutput w)).1.w = bytes w ++ [']'] := by
  obtain ⟨hb, hn, he⟩ := h.1 w ']'
  refine ⟨rfl, ?_, ?_, ?_⟩
  · simp only [Output.Close, NewOutput]
    split <;> [rfl; (split <;> rfl)]
  · simp [Output.Close, NewOutput, hn, he]
  · simp [Output.Close, NewOutput, hn, he, hb]

/-- An instance of C15 on the in-memory buffer: the whole output is `]`. -/
theorem Output_Close_fresh_witness :
    Output.run bufferSink [] [] = Output.Close bufferSink (NewOutput []) ∧
      (Output.Close bufferSink (NewOutput [])).1.w = [']'] ∧
      (Output.Close bufferSink (NewOutput [])).2 = none ∧
      (Output.Close bufferSink (NewOutput [])).1.w = [] ++ [']'] :=
  Output_Close_fresh bufferSink (fun w => w)
    (fun r => exampleEncoding (Output.WriteRecord.kvs bufferSink r))
    ⟨fun _ _ => ⟨rfl, rfl, rfl⟩, fun _ _ => ⟨rfl, rfl⟩⟩ []

/-- The delimiter step leaves `firstRecordWritten` set, whatever the writer
reports. -/
theorem Output.WriteRecord.delimiter_flag (I : SinkMethods ω R V Raw) (o : Output ω) :
    (Output.WriteRecord.delimiter I o).1.firstRecordWritten = true := by
  obtain ⟨w, first⟩ := o
  cases first
  · simp only [Output.WriteRecord.delimiter, Bool.not_false, if_true]
    split <;> [rfl; (split <;> rfl)]
  · simp only [Output.WriteRecord.delimiter, Bool.not_true, Bool.false_eq_true, if_false]
    split <;> [rfl; (split <;> rfl)]

/-- The delimiter step makes one write: of `[` on a fresh `Output`, of `,`
once `firstRecordWritten` is set. -/
theorem Output.WriteRecord.delimiter_writer (I : SinkMethods ω R V Raw) (o : Output ω) :
    (Output.WriteRecord.delimiter I o).1.w
      = (I.Write o.w [if o.firstRecordWritten then ',' else '[']).1 := by
  obtain ⟨w, first⟩ := o
  cases first
  · simp only [Output.WriteRecord.delimiter, Bool.not_false, if_true]
    split <;> [rfl; (split <;> rfl)]
  · simp only [Output.WriteRecord.delimiter, Bool.not_true, Bool.false_eq_true, if_false]
    split <;> [rfl; (split <;> rfl)]

/-- C14: when its delimiter write succeeds, `WriteRecord` calls the encoder
once, on the writer as that write left it, with a map that has an entry exactly
for the names of the fields of the record, the entry for the name of a field
being the raw value of the value the record has under that name; what
`WriteRecord` returns is the outcome of that call, an error of the encoder
being wrapped. -/
theorem Output_WriteRecord_encodes_flat_map (I : SinkMethods ω R V Raw) (o : Output ω)
    (record : R)
    (herr : (I.Write o.w [if o.firstRecordWritten then ',' else '[']).2.2 = none)
    (hn : (I.Write o.w [if o.firstRecordWritten then ',' else '[']).2.1 = 1) :
    ∃ m : String → Option Raw,
      Output.WriteRecord I o record
        = ({ w := (I.Encode (I.Write o.w [if o.firstRecordWritten then ',' else '[']).1 m).1
             firstRecordWritten := true },
           (I.Encode (I.Write o.w [if o.firstRecordWritten then ',' else '[']).1 m).2.map
             (fun err => Error.Wrap err "couldn't encode record as json")) ∧
      (∀ k, m k ≠ none ↔ ∃ field ∈ I.Fields record, field.Name.String = k) ∧
      (∀ field ∈ I.Fields record,
        m field.Name.String = some (I.ToRawValue (I.Value record field.Name))) := by
  refine ⟨Output.WriteRecord.kvs I record, ?_,
    (Output.WriteRecord.kvs_entries I record).1, (Output.WriteRecord.kvs_entries I record).2⟩
  obtain ⟨w, first⟩ := o
  cases first
  · simp only [Bool.false_eq_true, if_false] at herr hn
    simp only [Output.WriteRecord, Output.WriteRecord.delimiter, Bool.not_false, if_true,
      Bool.false_eq_true, if_false, herr, hn, ne_eq, not_true_eq_false]
    cases (I.Encode (I.Write w ['[']).1 (Output.WriteRecord.kvs I record)).2 <;> rfl
  · simp only [if_true] at herr hn
    simp only [Output.WriteRecord, Output.WriteRecord.delimiter, Bool.not_true,
      Bool.false_eq_true, if_false, if_true, herr, hn, ne_eq, not_true_eq_false]
    cases (I.Encode (I.Write w [',']).1 (Output.WriteRecord.kvs I record)).2 <;> rfl

/-- An instance of C14 on the in-memory buffer: for a record with the fields
`n` and `m`, what follows the `[` is the rendering of a map with the entries of
`n` and `m` and no entry for `z`. -/
theorem Output_WriteRecord_encodes_flat_map_witness :
    ∃ m : String → Option String,
      Output.WriteRecord bufferSink (NewOutput []) [("n", "1"), ("m", "2")]
        = ({ w := ['['] ++ exampleEncoding m, firstRecordWritten := true }, none) ∧
      m "n" = some "1" ∧ m "m" = some "2" ∧ m "z" = none := by
  obtain ⟨m, hret, hkeys, hvals⟩ :=
    Output_WriteRecord_encodes_flat_map bufferSink (NewOutput []) [("n", "1"), ("m", "2")]
      rfl rfl
  refine ⟨m, hret, hvals { Name := NewVariableName "n" } (by decide),
    hvals { Name := NewVariableName "m" } (by decide), ?_⟩
  by_contra h
  obtain ⟨field, hf, hk⟩ := (hkeys "z").1 h
  have hf2 : field = { Name := NewVariableName "n" } ∨ field = { Name := NewVariableName "m" } := by
    simpa [bufferSink, ExampleRecord.Fields] using hf
  rcases hf2 with rfl | rfl
  · exact absurd hk (by decide)
  · exact absurd hk (by decide)

/-- C16: after any call of `WriteRecord`, failed or not, `firstRecordWritten`
is set. On a fresh `Output`, a `WriteRecord` whose write of `[` reports an
error or a byte count other than 1 returns an error and leaves the flag set,
with the writer as that write left it; the delimiter the next `WriteRecord`
writes is then `,`, not `[`. -/
theorem Output_WriteRecord_sets_flag (I : SinkMethods ω R V Raw) (o : Output ω) (record : R) :
    (Output.WriteRecord I o record).1.firstRecordWritten = true ∧
      (o.firstRecordWritten = false →
        ((I.Write o.w ['[']).2.2 ≠ none ∨ (I.Write o.w ['[']).2.1 ≠ 1) →
        (Output.WriteRecord I o record).2 ≠ none ∧
          (Output.WriteRecord I o record).1
            = { w := (I.Write o.w ['[']).1, firstRecordWritten := true } ∧
          ∀ next : R,
            (Output.WriteRecord.delimiter I (Output.WriteRecord I o record).1).1.w
              = (I.Write (I.Write o.w ['[']).1 [',']).1 ∧
            (Output.WriteRecord I (Output.WriteRecord I o record).1
              next).1.firstRecordWritten = true) := by
  have hflag : ∀ (x : Output ω) (r : R), (Output.WriteRecord I x r).1.firstRecordWritten = true := by
    intro x r
    have hd := Output.WriteRecord.delimiter_flag I x
    simp only [Output.WriteRecord]
    split
    · next o1 err heq => rw [heq] at hd; exact hd
    · next o1 heq =>
      rw [heq] at hd
      split <;> exact hd
  refine ⟨hflag o record, ?_⟩
  intro hfresh hfail
  obtain ⟨w, first⟩ := o
  simp only at hfresh hfail
  subst hfresh
  have hret : Output.WriteRecord I { w := w, firstRecordWritten := false } record
      = ({ w := (I.Write w ['[']).1, firstRecordWritten := true },
         (Output.WriteRecord I { w := w, firstRecordWritten := false } record).2) := by
    rcases hfail with hfail | hfail
    · cases herr : (I.Write w ['[']).2.2 with
      | none => exact absurd herr hfail
      | some err => simp [Output.WriteRecord, Output.WriteRecord.delimiter, herr]
    · cases herr : (I.Write w ['[']).2.2 with
      | none => simp [Output.WriteRecord, Output.WriteRecord.delimiter, herr, hfail]
      | some err => simp [Output.WriteRecord, Output.WriteRecord.delimiter, herr]
  have herror : (Output.WriteRecord I { w := w, firstRecordWritten := false } record).2 ≠ none := by
    rcases hfail with hfail | hfail
    · cases herr : (I.Write w ['[']).2.2 with
      | none => exact absurd herr hfail
      | some err => simp [Output.WriteRecord, Output.WriteRecord.delimiter, herr]
    · cases herr : (I.Write w ['[']).2.2 with
      | none => simp [Output.WriteRecord, Output.WriteRecord.delimiter, herr, hfail]
      | some err => simp [Output.WriteRecord, Output.WriteRecord.delimiter, herr]
  have hfst : (Output.WriteRecord I { w := w, firstRecordWritten := false } record).1
      = { w := (I.Write w ['[']).1, firstRecordWritten := true } := by
    rw [hret]
  refine ⟨herror, hfst, fun next => ⟨?_, hflag _ next⟩⟩
  rw [Output.WriteRecord.delimiter_writer, hfst]
  rfl

/-- An instance of C16 on the writer that accepts no byte: the calls made by
two `WriteRecord` in a row on a fresh `Output` are a write of `[`, which fails,
and then a write of `,`. -/
theorem Output_WriteRecord_sets_flag_witness :
    (Output.WriteRecord shortSink (NewOutput []) [("n", "1")]).2 ≠ none ∧
      (Output.WriteRecord shortSink (NewOutput []) [("n", "1")]).1
        = { w := [Call.Write ['[']], firstRecordWritten := true } ∧
      ∀ next : ExampleRecord,
        (Output.WriteRecord.delimiter shortSink
            (Output.WriteRecord shortSink (NewOutput []) [("n", "1")]).1).1.w
          = [Call.Write ['['], Call.Write [',']] ∧
        (Output.WriteRecord shortSink
            (Output.WriteRecord shortSink (NewOutput []) [("n", "1")]).1
            next).1.firstRecordWritten = true :=
  (Output_WriteRecord_sets_flag shortSink (NewOutput []) [("n", "1")]).2 rfl
    (Or.inr (by decide))

end SinkEdges

/-! ## `GroupBy.Visualize` -/

section Visualize

variable {N E : Type}

/-- The loop over the key expressions appends one child per expression, named
after its index, and changes nothing else. -/
theorem GroupBy.Visualize.children_spec (I : VisualizeMethods N E) (l : List E) (k : Nat)
    (n : GraphNode) :
    (GroupBy.Visualize.children I k l n).Name = n.Name ∧
      (GroupBy.Visualize.children I k l n).Fields = n.Fields ∧
      ∃ cs, (GroupBy.Visualize.children I k l n).Children = n.Children ++ cs ∧
        cs.length = l.length ∧
        ∀ i (hi : i < l.length),
          cs[i]? = some ("key_" ++ toString (k + i), I.exprVisualize l[i]) := by
  induction l generalizing k n with
  | nil => exact ⟨rfl, rfl, [], by simp [GroupBy.Visualize.children], rfl, fun i hi => by simp at hi⟩
  | cons e rest ih =>
    obtain ⟨hname, hfields, cs, hcs, hlen, hget⟩ :=
      ih (k + 1) (n.AddChild ("key_" ++ toString k) (I.exprVisualize e))
    refine ⟨hname, hfields, ("key_" ++ toString k, I.exprVisualize e) :: cs, ?_, by simp [hlen], ?_⟩
    · simp only [GroupBy.Visualize.children]
      rw [hcs]
      simp [GraphNode.AddChild, GraphNode.Children]
    · intro i hi
      cases i with
      | zero => simp
      | succ i =>
        have hi1 : i < rest.length := by simpa using hi
        have := hget i hi1
        simp only [List.getElem?_cons_succ, List.getElem_cons_succ]
        rw [this, show k + 1 + i = k + (i + 1) by omega]

/-- When `Aggregates` and `As` reach as far as the field names, the loop over
the field names panics nowhere and appends one field per name. -/
theorem GroupBy.Visualize.fields_spec (node : GroupBy N E) (l : List VariableName) (k : Nat)
    (n : GraphNode) (ha : k + l.length ≤ node.Aggregates.length)
    (hs : k + l.length ≤ node.As.length) :
    ∃ g fs, GroupBy.Visualize.fields node k l n = some g ∧
      g.Name = n.Name ∧ g.Children = n.Children ∧ g.Fields = n.Fields ++ fs ∧
      fs.length = l.length ∧
      ∀ i (hi : i < l.length), ∃ a as,
        node.Aggregates[k + i]? = some a ∧ node.As[k + i]? = some as ∧
        fs[i]? = some ("field_" ++ toString (k + i), GroupBy.Visualize.value a l[i] as) := by
  induction l generalizing k n with
  | nil => exact ⟨n, [], rfl, rfl, rfl, by simp, rfl, fun i hi => by simp at hi⟩
  | cons f rest ih =>
    have hka : k < node.Aggregates.length := by simp at ha; omega
    have hks : k < node.As.length := by simp at hs; omega
    have hla : k + 1 + rest.length ≤ node.Aggregates.length := by simp at ha; omega
    have hls : k + 1 + rest.length ≤ node.As.length := by simp at hs; omega
    obtain ⟨g, fs, hg, hname, hchildren, hfields, hlen, hget⟩ :=
      ih (k + 1)
        (n.AddField ("field_" ++ toString k)
          (GroupBy.Visualize.value node.Aggregates[k] f node.As[k])) hla hls
    refine ⟨g, ("field_" ++ toString k,
        GroupBy.Visualize.value node.Aggregates[k] f node.As[k]) :: fs, ?_, hname, hchildren,
      ?_, by simp [hlen], ?_⟩
    · simp only [GroupBy.Visualize.fields, List.getElem?_eq_getElem hka,
        List.getElem?_eq_getElem hks]
      exact hg
    · rw [hfields]
      simp [GraphNode.AddField, GraphNode.Fields]
    · intro i hi
      cases i with
      | zero =>
        exact ⟨node.Aggregates[k], node.As[k], by simp [List.getElem?_eq_getElem hka],
          by simp [List.getElem?_eq_getElem hks], by simp⟩
      | succ i =>
        have hi1 : i < rest.length := by simpa using hi
        obtain ⟨a, as, h1, h2, h3⟩ := hget i hi1
        rw [show k + 1 + i = k + (i + 1) by omega] at h1 h2 h3
        exact ⟨a, as, h1, h2, by simpa using h3⟩

/-- When `Aggregates` or `As` stops before the field names, the loop over the
field names panics. -/
theorem GroupBy.Visualize.fields_panic (node : GroupBy N E) (l : List VariableName) (k : Nat)
    (n : GraphNode)
    (h : node.Aggregates.length < k + l.length ∨ node.As.length < k + l.length)
    (hka : k ≤ node.Aggregates.length) (hks : k ≤ node.As.length) :
    GroupBy.Visualize.fields node k l n = none := by
  induction l generalizing k n with
  | nil => simp at h; omega
  | cons f rest ih =>
    simp only [GroupBy.Visualize.fields]
    cases hA : node.Aggregates[k]? with
    | none => rfl
    | some a =>
      cases hS : node.As[k]? with
      | none => rfl
      | some as =>
        have h1 : k < node.Aggregates.length := by
          by_contra hc
          rw [List.getElem?_eq_none (by omega)] at hA
          cases hA
        have h2 : k < node.As.length := by
          by_contra hc
          rw [List.getElem?_eq_none (by omega)] at hS
          cases hS
        simp only
        apply ih
        · simp at h; omega
        · omega
        · omega

/-- C17: when `len(Fields) == len(Aggregates) == len(As)`, `GroupBy.Visualize`
indexes nothing out of range and returns a node with `1 + len(Key)` children,
`source` and then `key_i` in index order, and `len(Fields)` fields, `field_i`
being `Aggregates[i](Fields[i])`, followed by ` as As[i]` exactly when `As[i]`
is not empty; when `Aggregates` or `As` is shorter than `Fields`, an index is
out of range and the method panics. -/
theorem GroupBy_Visualize_shape (I : VisualizeMethods N E) (node : GroupBy N E) :
    (node.lengthsAgree →
      ∃ g, GroupBy.Visualize I node = some g ∧
        g.Children.length = 1 + node.Key.length ∧
        g.Children[0]? = some ("source", I.nodeVisualize node.Source) ∧
        (∀ i (hi : i < node.Key.length),
          g.Children[i + 1]? = some ("key_" ++ toString i, I.exprVisualize node.Key[i])) ∧
        g.Fields.length = node.Fields.length ∧
        (∀ i (hi : i < node.Fields.length), ∃ a as,
          node.Aggregates[i]? = some a ∧ node.As[i]? = some as ∧
          g.Fields[i]? = some ("field_" ++ toString i,
            a.kind ++ "(" ++ node.Fields[i].String ++ ")"
              ++ (if as.Empty then "" else " as " ++ as.String)))) ∧
      ((node.Aggregates.length < node.Fields.length ∨ node.As.length < node.Fields.length) →
        GroupBy.Visualize I node = none) := by
  constructor
  · rintro ⟨hfa, has⟩
    obtain ⟨hcn, hcf, cs, hcs, hclen, hcget⟩ :=
      GroupBy.Visualize.children_spec I node.Key 0
        ((graph.NewNode "Group By").AddChild "source" (I.nodeVisualize node.Source))
    obtain ⟨g, fs, hg, hname, hchildren, hfields, hflen, hfget⟩ :=
      GroupBy.Visualize.fields_spec node node.Fields 0
        (GroupBy.Visualize.children I 0 node.Key
          ((graph.NewNode "Group By").AddChild "source" (I.nodeVisualize node.Source)))
        (by omega) (by omega)
    have hch : g.Children = ("source", I.nodeVisualize node.Source) :: cs := by
      rw [hchildren, hcs]
      rfl
    have hfs : g.Fields = fs := by
      rw [hfields, hcf]
      rfl
    refine ⟨g, hg, by rw [hch]; simp [hclen]; omega, by rw [hch]; simp, ?_, by rw [hfs, hflen], ?_⟩
    · intro i hi
      rw [hch, List.getElem?_cons_succ]
      simpa using hcget i hi
    · intro i hi
      obtain ⟨a, as, h1, h2, h3⟩ := hfget i hi
      simp only [Nat.zero_add] at h1 h2 h3
      refine ⟨a, as, h1, h2, ?_⟩
      rw [hfs, h3]
      congr 2
      unfold GroupBy.Visualize.value
      cases hE : as.Empty <;> simp [String.append_assoc]
  · intro h
    exact GroupBy.Visualize.fields_panic node node.Fields 0 _ (by omega) (by omega) (by omega)

/-- An instance of C17 on the example language: two aggregates, one of them
with an alias; and the same node without its aliases, on which the method
panics. -/
theorem GroupBy_Visualize_shape_witness :
    (∃ g, GroupBy.Visualize exampleVisualize
          (NewGroupBy (PlanNode.scan "t") [NewVariableName "k"]
            [NewVariableName "x", NewVariableName "y"]
            [Aggregate.Sum, Aggregate.Count]
            [NewVariableName "total", NewVariableName ""]) = some g ∧
        g.Children.length = 1 + 1 ∧
        g.Children[0]? = some ("source", GraphNode.mk "Scan" [("table", "t")] []) ∧
        (∀ i (hi : i < 1),
          g.Children[i + 1]? = some ("key_" ++ toString i,
            exampleVisualize.exprVisualize [NewVariableName "k"][i])) ∧
        g.Fields.length = 2 ∧
        (∀ i (hi : i < 2), ∃ a as,
          [Aggregate.Sum, Aggregate.Count][i]? = some a ∧
          [NewVariableName "total", NewVariableName ""][i]? = some as ∧
          g.Fields[i]? = some ("field_" ++ toString i,
            a.kind ++ "(" ++ [NewVariableName "x", NewVariableName "y"][i].String ++ ")"
              ++ (if as.Empty then "" else " as " ++ as.String)))) ∧
      GroupBy.Visualize exampleVisualize
          (NewGroupBy (PlanNode.scan "t") [NewVariableName "k"]
            [NewVariableName "x", NewVariableName "y"]
            [Aggregate.Sum, Aggregate.Count] []) = none :=
  ⟨(GroupBy_Visualize_shape exampleVisualize
      (NewGroupBy (PlanNode.scan "t") [NewVariableName "k"]
        [NewVariableName "x", NewVariableName "y"]
        [Aggregate.Sum, Aggregate.Count]
        [NewVariableName "total", NewVariableName ""])).1 (by decide),
   (GroupBy_Visualize_shape exampleVisualize
      (NewGroupBy (PlanNode.scan "t") [NewVariableName "k"]
        [NewVariableName "x", NewVariableName "y"]
        [Aggregate.Sum, Aggregate.Count] [])).2 (Or.inr (by decide))⟩

end Visualize

/-! ## `NewAggregate` -/

section NewAggregate

/-- Up to `unicode.MaxASCII` the case tables are not consulted. -/
theorem unicode.ToLower_ascii (table : Char → Char) (r : Char) (h : r.toNat ≤ 0x7F) :
    unicode.ToLower table r = unicode.ToLower (fun x => x) r := by
  simp only [unicode.ToLower, h, if_true]

/-- Above `unicode.MaxASCII` the result is the entry of the case tables. -/
theorem unicode.ToLower_table (table : Char → Char) (r : Char) (h : 0x7F < r.toNat) :
    unicode.ToLower table r = table r := by
  have h2 : ¬ r.toNat ≤ 0x7F := by omega
  simp only [unicode.ToLower, h2, if_false]

set_option maxRecDepth 100000 in
/-- The 128 ASCII runes, one by one: changing the case of the rune keeps it in
ASCII and does not change its lower case, and its lower case is in ASCII and is
its own lower case. -/
theorem unicode.ToLower_ascii_facts : ∀ n, n < 128 →
    (Char.ofNat n).toLower.toNat ≤ 0x7F ∧ (Char.ofNat n).toUpper.toNat ≤ 0x7F ∧
      unicode.ToLower (fun x => x) (Char.ofNat n).toLower
        = unicode.ToLower (fun x => x) (Char.ofNat n) ∧
      unicode.ToLower (fun x => x) (Char.ofNat n).toUpper
        = unicode.ToLower (fun x => x) (Char.ofNat n) ∧
      (unicode.ToLower (fun x => x) (Char.ofNat n)).toNat ≤ 0x7F ∧
      unicode.ToLower (fun x => x) (unicode.ToLower (fun x => x) (Char.ofNat n))
        = unicode.ToLower (fun x => x) (Char.ofNat n) := by
  decide

/-- Above ASCII a rune has no ASCII case to change. -/
theorem asciiCaseChanged_above (c d : Char) (h : 0x7F < c.toNat) (hcd : asciiCaseChanged c d) :
    d = c := by
  have hl : c.toLower = c := by
    unfold Char.toLower
    simp only
    rw [if_neg]
    omega
  have hu : c.toUpper = c := by
    unfold Char.toUpper
    simp only
    rw [if_neg]
    omega
  rcases hcd with h1 | h1 | h1
  · exact h1
  · rw [h1, hl]
  · rw [h1, hu]

/-- A change of the ASCII case of a rune does not change its lower case. -/
theorem unicode.ToLower_asciiCaseChanged (table : Char → Char) (c d : Char)
    (hcd : asciiCaseChanged c d) : unicode.ToLower table d = unicode.ToLower table c := by
  by_cases h : c.toNat ≤ 0x7F
  · obtain ⟨hl, hu, hll, hlu, _, _⟩ := unicode.ToLower_ascii_facts c.toNat (by omega)
    rw [Char.ofNat_toNat] at hl hu hll hlu
    rcases hcd with h1 | h1 | h1
    · rw [h1]
    · rw [h1, unicode.ToLower_ascii table _ hl, hll, unicode.ToLower_ascii table c h]
    · rw [h1, unicode.ToLower_ascii table _ hu, hlu, unicode.ToLower_ascii table c h]
  · rw [asciiCaseChanged_above c d (by omega) hcd]

/-- A change of the ASCII case of letters of a string does not change its lower
case. -/
theorem strings.ToLower_eq_of_case_changed (table : Char → Char) (s t : String)
    (h : AsciiCaseChanged s t) : strings.ToLower table s = strings.ToLower table t := by
  have hlist : ∀ l m : List Char, List.Forall₂ asciiCaseChanged l m →
      l.map (unicode.ToLower table) = m.map (unicode.ToLower table) := by
    intro l m hlm
    induction hlm with
    | nil => rfl
    | cons hcd _ ih =>
      simp only [List.map_cons]
      rw [unicode.ToLower_asciiCaseChanged table _ _ hcd, ih]
  unfold strings.ToLower
  rw [hlist s.data t.data h]

/-- When the case tables send every rune to a rune that lower-casing leaves
unchanged, lower-casing a rune twice is lower-casing it once. -/
theorem unicode.ToLower_idem (table : Char → Char)
    (htable : ∀ r, 0x7F < r.toNat → unicode.ToLower table (table r) = table r) (r : Char) :
    unicode.ToLower table (unicode.ToLower table r) = unicode.ToLower table r := by
  by_cases h : r.toNat ≤ 0x7F
  · obtain ⟨_, _, _, _, hle, hid⟩ := unicode.ToLower_ascii_facts r.toNat (by omega)
    rw [Char.ofNat_toNat] at hle hid
    rw [unicode.ToLower_ascii table r h, unicode.ToLower_ascii table _ hle, hid]
  · rw [unicode.ToLower_table table r (by omega)]
    exact htable r (by omega)

/-- C11, as stated, fails outside ASCII. The upper case of the dotless i
(U+0131) is `I`; `NewAggregate` leaves the dotless i as it is and turns `I`
into `i`, so the two casings of that one letter give different results. -/
theorem NewAggregate_case_counterexample :
    exampleUpperTable (Char.ofNat 0x131) = 'I' ∧
      NewAggregate exampleLowerTable (String.mk [Char.ofNat 0x131])
        = Aggregate.mk (String.mk [Char.ofNat 0x131]) ∧
      NewAggregate exampleLowerTable "I" = Aggregate.mk "i" ∧
      NewAggregate exampleLowerTable (String.mk [Char.ofNat 0x131])
        ≠ NewAggregate exampleLowerTable "I" := by
  decide

/-- C11, amended: `NewAggregate(s)` is the lower-cased `s`; it does not depend
on the case of the letters `a`-`z`, `A`-`Z` of `s`; each of the ten kind names,
in any casing of these letters, gives its constant; and `NewAggregate` applied
to its own result returns that result, the Unicode case tables sending every
rune to a rune that lower-casing leaves unchanged. -/
theorem NewAggregate_ascii_case_insensitive (table : Char → Char) :
    (∀ s, NewAggregate table s = Aggregate.mk (strings.ToLower table s)) ∧
      (∀ s t, AsciiCaseChanged s t → NewAggregate table s = NewAggregate table t) ∧
      (∀ name ∈ Aggregate.constants, ∀ s, AsciiCaseChanged name.kind s →
        NewAggregate table s = name) ∧
      ((∀ r, 0x7F < r.toNat → unicode.ToLower table (table r) = table r) →
        ∀ s, NewAggregate table (NewAggregate table s).kind = NewAggregate table s) := by
  refine ⟨fun _ => rfl, ?_, ?_, ?_⟩
  · intro s t h
    unfold NewAggregate
    rw [strings.ToLower_eq_of_case_changed table s t h]
  · intro name hname s h
    have hs : NewAggregate table s = NewAggregate table name.kind := by
      unfold NewAggregate
      rw [strings.ToLower_eq_of_case_changed table name.kind s h]
    rw [hs]
    simp only [Aggregate.constants, List.mem_cons, List.mem_singleton, List.not_mem_nil,
      or_false] at hname
    rcases hname with h | h | h | h | h | h | h | h | h | h <;> subst h <;> rfl
  · intro htable s
    unfold NewAggregate strings.ToLower
    congr 2
    simp only [List.map_map]
    apply List.map_congr_left
    intro r _
    exact unicode.ToLower_idem table htable r

/-- An instance of C11 as amended: `CoUnT` gives the constant `Count`, and the
result for a string with a capital I with a dot above is a fixed point. -/
theorem NewAggregate_ascii_case_insensitive_witness :
    NewAggregate exampleLowerTable "CoUnT" = Aggregate.Count ∧
      NewAggregate exampleLowerTable
          (NewAggregate exampleLowerTable (String.mk ['M', Char.ofNat 0x130, 'N'])).kind
        = NewAggregate exampleLowerTable (String.mk ['M', Char.ofNat 0x130, 'N']) :=
  ⟨(NewAggregate_ascii_case_insensitive exampleLowerTable).2.2.1 Aggregate.Count (by decide)
      "CoUnT"
      (List.Forall₂.cons (by decide) (List.Forall₂.cons (by decide)
        (List.Forall₂.cons (by decide) (List.Forall₂.cons (by decide)
          (List.Forall₂.cons (by decide) List.Forall₂.nil))))),
   (NewAggregate_ascii_case_insensitive exampleLowerTable).2.2.2
      (by
        intro r hr
        by_cases h : r = Char.ofNat 0x130
        · subst h
          decide
        · have ht : exampleLowerTable r = r := by simp [exampleLowerTable, h]
          rw [ht, unicode.ToLower_table _ r hr, ht])
      (String.mk ['M', Char.ofNat 0x130, 'N'])⟩

end NewAggregate

end Octosql
